import Mathlib

/-!
Verification of the task/reminder data model and derived-view computations of
the `rewards` web app (React + TypeScript), against a shallow embedding of the
source in Lean.

Modelling conventions:
* Wall-clock moments are local-time milliseconds since the local epoch,
  represented as `Nat` (the app only ever handles post-epoch dates).  A local
  calendar day is a block of 86 400 000 consecutive milliseconds; this models
  a fixed-offset local clock (DST shifts are not modelled, no claim depends
  on them).
* Task identifiers are opaque unique strings in the source (`generateId`,
  "sufficiently unique"); they are modelled as `Nat` drawn from a fresh
  counter, which realises the uniqueness the source relies on.
* JavaScript runtime behaviour that the source calls into (`setTimeout`,
  `clearTimeout`, `JSON.parse`/`JSON.stringify`, `new Date(...)`,
  `Date.prototype.toISOString`, the Notification API) is modelled explicitly;
  each such definition's doc comment names the platform behaviour it models.
-/

namespace Rewards

/-- Milliseconds in one local calendar day. -/
def msPerDay : Nat := 86400000

/-- interface Task (types.ts): a completed task.  `points` is optional
(`points?: number`); `timestamp` is a `Date`, modelled as local-epoch ms. -/
structure Task where
  id : Nat
  name : String
  timestamp : Nat
  points : Option Nat
deriving DecidableEq

/-- Start of the current local day, as computed by
`const startOfDay = new Date(); startOfDay.setHours(0, 0, 0, 0)`
in TaskList.tsx. -/
def startOfDay (now : Nat) : Nat := now / msPerDay * msPerDay

/-- End of the current local day, as computed by
`const endOfDay = new Date(); endOfDay.setHours(23, 59, 59, 999)`
in TaskList.tsx. -/
def endOfDay (now : Nat) : Nat := startOfDay now + (msPerDay - 1)

/-- TaskList.tsx:
`tasks.filter(task => task.timestamp >= startOfDay && task.timestamp <= endOfDay)`
(Date comparison is comparison of their millisecond values). -/
def tasksToday (tasks : List Task) (now : Nat) : List Task :=
  tasks.filter fun t => decide (startOfDay now ≤ t.timestamp ∧ t.timestamp ≤ endOfDay now)

/-- TaskList.tsx:
`tasksToday.reduce((sum, task) => sum + (task.points || 0), 0)`.
For an optional non-negative integer, `task.points || 0` is `getD 0`
(the JS `||` falls back exactly on `undefined` and `0`, both of which
yield `0` here). -/
def totalPointsToday (tasks : List Task) (now : Nat) : Nat :=
  (tasksToday tasks now).foldl (fun sum t => sum + t.points.getD 0) 0

/-- TaskList.tsx: `tasks.reduce((sum, task) => sum + (task.points || 0), 0)`. -/
def totalPoints (tasks : List Task) : Nat :=
  tasks.foldl (fun sum t => sum + t.points.getD 0) 0

/-- Local calendar-day index of a moment.  Two moments have equal
`toDateStringDay` exactly when the source's `Date.prototype.toDateString`
values are equal (same local calendar day). -/
def toDateStringDay (t : Nat) : Nat := t / msPerDay

/-- The while-loop of `calculateStreak` (TaskList.tsx):
`while (daySet.has(day.toDateString())) { streak += 1; day.setDate(day.getDate() - 1) }`.
The walk is over calendar-day indices (as integers, since the walk may pass
below the epoch day); `fuel` bounds the iteration count, and
`calculateStreak` supplies fuel that provably never runs out
(`streakLoop_lt_fuel`). -/
def streakLoop (daySet : List Int) (day : Int) : Nat → Nat
  | 0 => 0
  | fuel + 1 => if day ∈ daySet then streakLoop daySet (day - 1) fuel + 1 else 0

/-- calculateStreak (TaskList.tsx): `if (tasks.length === 0) return 0;`
then build `daySet` from the tasks' calendar days and walk backward from
today. -/
def calculateStreak (tasks : List Task) (now : Nat) : Nat :=
  if tasks.isEmpty then 0
  else
    streakLoop (tasks.map fun t => (toDateStringDay t.timestamp : Int))
      (toDateStringDay now : Int)
      (tasks.length + 1)

/-- interface TaskReminder (types.ts, reminder revision): `enabled: boolean`,
`option: ReminderOption`, `customMinutes?: number`, `timeoutId?: number`.
The option is modelled as a string because at runtime it is a string (data
loaded from storage is not checked against the TS union type, and the
source's `switch` has a `default` arm).  `customMinutes` is an `Int`: the
UI writes `parseInt(e.target.value) || 30` into it, which can be negative. -/
structure TaskReminder where
  enabled : Bool
  option : String
  customMinutes : Option Int
  timeoutId : Option Nat
deriving DecidableEq

/-- The delay switch inside `scheduleReminder` (App.tsx):
`'1hr'` gives 60*60*1000, `'2hr'` gives 2*60*60*1000, `'custom'` gives
`(task.reminder.customMinutes || 30) * 60 * 1000`, and the `default` arm
computes no delay.  JS `x || 30` falls back exactly when `x` is falsy,
i.e. unset or `0` — a negative value is truthy and is used as is. -/
def computeDelayMs (option : String) (customMinutes : Option Int) : Option Int :=
  if option = "1hr" then some 3600000
  else if option = "2hr" then some 7200000
  else if option = "custom" then
    some ((match customMinutes with
           | none => 30
           | some m => if m = 0 then 30 else m) * 60000)
  else none

/-- scheduleReminder (App.tsx): `if (!task.reminder?.enabled) return undefined;`
then the delay switch; returns the delay for which a one-shot timer is armed
(`none` means no timer is armed). -/
def scheduleReminderDelay (reminder : Option TaskReminder) : Option Int :=
  match reminder with
  | none => none
  | some r => if r.enabled then computeDelayMs r.option r.customMinutes else none

/-- One iteration of the restore-reminders effect (App.tsx) for a single
loaded task's reminder: the guard
`task.reminder?.enabled && !task.reminder.timeoutId`
(`!x` on an optional number is true exactly for unset or `0`), the delay
switch (identical to the one in `scheduleReminder`), then
`timeElapsed = Date.now() - task.createdAt.getTime()`,
`remainingDelayMs = totalDelayMs - timeElapsed`, and a timer is armed for
`remainingDelayMs` only `if (remainingDelayMs > 0)`.  Returns the delay the
effect arms a timer for (`none` means no timer is armed). -/
def restoreDelay (now : Nat) (createdAt : Nat) (reminder : Option TaskReminder) : Option Int :=
  match reminder with
  | none => none
  | some r =>
    if r.enabled = true ∧ r.timeoutId.getD 0 = 0 then
      match computeDelayMs r.option r.customMinutes with
      | none => none
      | some total =>
        let remaining : Int := total - ((now : Int) - (createdAt : Int))
        if 0 < remaining then some remaining else none
    else none

/-- type Priority (types.ts): `'high' | 'medium' | 'low'`. -/
inductive Priority where
  | high : Priority
  | medium : Priority
  | low : Priority
deriving DecidableEq

/-- interface PlanningTask (types.ts, reminder revision). -/
structure PlanningTask where
  id : Nat
  name : String
  priority : Priority
  createdAt : Nat
  reminder : Option TaskReminder
deriving DecidableEq

/-- A live one-shot timer armed through `window.setTimeout` with a callback
`() => NotificationService.showTaskReminder(task.name, task.id)` (App.tsx).
The callback's captured data (task name and id) is the timer's payload;
`fireAt` is the arming moment plus the requested delay (a negative delay is
clamped by the platform, so the timer may fire at any time from `fireAt`
on). -/
structure LiveTimer where
  handle : Nat
  taskId : Nat
  taskName : String
  fireAt : Int
deriving DecidableEq

/-- The mutable state of the running app: the two collections held by React
state, plus the platform state the source manipulates (live `setTimeout`
timers, delivered reminder notifications whose action buttons are still
clickable), plus the fresh-handle and fresh-id counters and the clock. -/
structure AppState where
  tasks : List Task
  planningTasks : List PlanningTask
  live : List LiveTimer
  notified : List (Nat × String)
  nextHandle : Nat
  nextId : Nat
  now : Nat
deriving DecidableEq

/-- Models `window.setTimeout(() => showTaskReminder(name, id), delayMs)`:
arms a fresh one-shot timer and returns its (positive) handle.  Browsers
return positive integer timer ids; the model draws them from a counter that
starts at 1. -/
def jsSetTimeout (s : AppState) (taskId : Nat) (taskName : String) (delayMs : Int) :
    Nat × AppState :=
  (s.nextHandle,
   { s with
       live := { handle := s.nextHandle, taskId := taskId, taskName := taskName,
                 fireAt := (s.now : Int) + delayMs } :: s.live
       nextHandle := s.nextHandle + 1 })

/-- Models `clearTimeout(h)`: the timer with handle `h` (if still live) is
cancelled; clearing a dead handle is a no-op. -/
def jsClearTimeout (s : AppState) (h : Nat) : AppState :=
  { s with live := s.live.filter fun t => decide (t.handle ≠ h) }

/-- handleAddTask (App.tsx): appends a completed task with a fresh id and
`timestamp: new Date()`.  The optional celebration notification is a pure
display side effect and is not part of the state. -/
def handleAddTask (s : AppState) (name : String) (points : Option Nat) : AppState :=
  { s with
      tasks := s.tasks ++ [{ id := s.nextId, name := name, timestamp := s.now,
                             points := points }]
      nextId := s.nextId + 1 }

/-- handleDeletePlanningTask (App.tsx): find the task, clear its recorded
timeout if truthy (`if (taskToDelete?.reminder?.timeoutId) clearTimeout(...)`),
then `prev.filter(task => task.id !== taskId)`. -/
def handleDeletePlanningTask (s : AppState) (taskId : Nat) : AppState :=
  let s' :=
    match s.planningTasks.find? fun t => decide (t.id = taskId) with
    | some t =>
      match t.reminder.bind TaskReminder.timeoutId with
      | some h => if h ≠ 0 then jsClearTimeout s h else s
      | none => s
    | none => s
  { s' with planningTasks := s'.planningTasks.filter fun t => decide (t.id ≠ taskId) }

/-- NotificationService.requestPermission's result type
(notificationService.ts): `granted` plus a UI hint.  Every outcome of the
permission boundary (already granted, just granted, denied, unsupported,
first-visit custom prompt) is one of these values; the model takes the
outcome as an oracle input. -/
structure NotificationPermissionResult where
  granted : Bool
  showCustomPrompt : Bool
deriving DecidableEq

/-- handleAddPlanningTask (App.tsx): build the task with a fresh id,
`priority: 'low'`, `createdAt: new Date()`; if the requested reminder is
enabled, request permission — when granted, arm the reminder through
`scheduleReminder` and record the returned handle
(`if (timeoutId && newPlanningTask.reminder) ... .timeoutId = timeoutId`);
in both non-granted branches set `reminder.enabled = false`; finally append
the task. -/
def handleAddPlanningTask (s : AppState) (name : String) (reminder : Option TaskReminder)
    (perm : NotificationPermissionResult) : AppState :=
  let base : PlanningTask :=
    { id := s.nextId, name := name, priority := Priority.low, createdAt := s.now,
      reminder := reminder }
  let s0 := { s with nextId := s.nextId + 1 }
  if (match reminder with | some r => r.enabled | none => false) then
    if perm.granted then
      match scheduleReminderDelay base.reminder with
      | some d =>
        let armed := jsSetTimeout s0 base.id base.name d
        let task :=
          if armed.1 ≠ 0 then
            { base with reminder := base.reminder.map fun r => { r with timeoutId := some armed.1 } }
          else base
        { armed.2 with planningTasks := armed.2.planningTasks ++ [task] }
      | none => { s0 with planningTasks := s0.planningTasks ++ [base] }
    else
      let task := { base with reminder := base.reminder.map fun r => { r with enabled := false } }
      { s0 with planningTasks := s0.planningTasks ++ [task] }
  else
    { s0 with planningTasks := s0.planningTasks ++ [base] }

/-- One iteration of the restore-reminders effect (App.tsx) for `task`: if
`restoreDelay` arms a timer, record its handle on the task via
`prev.map(t => t.id === task.id && t.reminder ? ...t, reminder: ...t.reminder, timeoutId : t)`. -/
def applyRestore (s : AppState) (task : PlanningTask) : AppState :=
  match restoreDelay s.now task.createdAt task.reminder with
  | none => s
  | some remaining =>
    let armed := jsSetTimeout s task.id task.name remaining
    { armed.2 with
        planningTasks := armed.2.planningTasks.map fun t =>
          if t.id = task.id ∧ t.reminder.isSome then
            { t with reminder := t.reminder.map fun r => { r with timeoutId := some armed.1 } }
          else t }

/-- handleUpdatePlanningTaskPriority (App.tsx):
`prev.map(task => task.id === taskId ? { ...task, priority: newPriority } : task)`. -/
def handleUpdatePlanningTaskPriority (s : AppState) (taskId : Nat) (newPriority : Priority) :
    AppState :=
  { s with
      planningTasks := s.planningTasks.map fun t =>
        if t.id = taskId then { t with priority := newPriority } else t }

/-- handleTaskComplete (App.tsx, notification-action listener): if the task
is still in the planning collection, `handleDeletePlanningTask(taskId)` then
`handleAddTask(taskName, 10)` (a fixed 10 points); otherwise nothing. -/
def handleTaskComplete (s : AppState) (taskId : Nat) (taskName : String) : AppState :=
  if (s.planningTasks.find? fun t => decide (t.id = taskId)).isSome then
    handleAddTask (handleDeletePlanningTask s taskId) taskName (some 10)
  else s

/-- handleSnooze (App.tsx, notification-action listener): if the task exists
and has a reminder (`if (task && task.reminder)`), arm a fresh timer for
`15 * 60 * 1000` ms and record its handle on the task. -/
def handleSnooze (s : AppState) (taskId : Nat) : AppState :=
  match s.planningTasks.find? fun t => decide (t.id = taskId) with
  | none => s
  | some task =>
    match task.reminder with
    | none => s
    | some _ =>
      let armed := jsSetTimeout s task.id task.name 900000
      { armed.2 with
          planningTasks := armed.2.planningTasks.map fun t =>
            if t.id = taskId ∧ t.reminder.isSome then
              { t with reminder := t.reminder.map fun r => { r with timeoutId := some armed.1 } }
            else t }

/-- Models the timer with handle `timer.handle` elapsing: the one-shot timer
dies and its callback runs `showTaskReminder(taskName, taskId)`, delivering a
notification whose action buttons (mark complete / snooze) are now
clickable. -/
def fireTimer (s : AppState) (timer : LiveTimer) : AppState :=
  { s with
      live := s.live.filter fun t => decide (t.handle ≠ timer.handle)
      notified := (timer.taskId, timer.taskName) :: s.notified }

/-- Models the delivered notification for `taskId` being closed (clicking an
action button closes it). -/
def closeNotification (s : AppState) (taskId : Nat) : AppState :=
  { s with notified := s.notified.filter fun e => decide (e.1 ≠ taskId) }

/-- The app's event loop: every discrete event the source reacts to, as a
transition relation.  `addPlanningTask` requires the requested reminder to
carry no `timeoutId`, matching the only caller (the PlanningTab form builds
`enabled / option / customMinutes` only); `complete` and `snooze` arise from
clicking a delivered notification's action buttons; `reload` models a page
reload (timers and notifications do not survive; the collections do, via
storage — the persistence round trip is proved separately). -/
inductive Step : AppState → AppState → Prop where
  | addTask : ∀ (s : AppState) (name : String) (points : Option Nat),
      Step s (handleAddTask s name points)
  | addPlanningTask : ∀ (s : AppState) (name : String) (reminder : Option TaskReminder)
      (perm : NotificationPermissionResult),
      (∀ r, reminder = some r → r.timeoutId = none) →
      Step s (handleAddPlanningTask s name reminder perm)
  | restore : ∀ (s : AppState) (task : PlanningTask), task ∈ s.planningTasks →
      Step s (applyRestore s task)
  | updatePriority : ∀ (s : AppState) (taskId : Nat) (p : Priority),
      Step s (handleUpdatePlanningTaskPriority s taskId p)
  | deleteTask : ∀ (s : AppState) (taskId : Nat),
      Step s (handleDeletePlanningTask s taskId)
  | fire : ∀ (s : AppState) (timer : LiveTimer), timer ∈ s.live →
      timer.fireAt ≤ (s.now : Int) →
      Step s (fireTimer s timer)
  | complete : ∀ (s : AppState) (taskId : Nat) (taskName : String),
      (taskId, taskName) ∈ s.notified →
      Step s (closeNotification (handleTaskComplete s taskId taskName) taskId)
  | snooze : ∀ (s : AppState) (taskId : Nat) (taskName : String),
      (taskId, taskName) ∈ s.notified →
      Step s (closeNotification (handleSnooze s taskId) taskId)
  | tick : ∀ (s : AppState) (d : Nat), Step s { s with now := s.now + d }
  | reload : ∀ (s : AppState), Step s { s with live := [], notified := [] }

/-- The freshly opened app: empty collections, no timers, no notifications. -/
def initState : AppState :=
  { tasks := [], planningTasks := [], live := [], notified := [],
    nextHandle := 1, nextId := 0, now := 0 }

/-- States reachable by some sequence of the program's operations. -/
def Reachable (s : AppState) : Prop := Relation.ReflTransGen Step initState s

/-- The inductive invariant of the event loop.  Fields about timer handles
and ids say the counters are fresh; `owned` says every live timer's handle is
recorded on `reminder.timeoutId` of the (unique) task that owns it; `recOwn`
says a recorded handle can only name a live timer of its own task;
`notifNoLive` says a task with a still-clickable delivered notification has
no live timer (its one-shot timer just fired); `notifRec` says such a task's
recorded `timeoutId` is truthy (the fired handle is stale but recorded, which
is exactly what blocks the restore effect from double-arming). -/
structure Inv (s : AppState) : Prop where
  nextHandlePos : 1 ≤ s.nextHandle
  handlePos : ∀ T ∈ s.live, 1 ≤ T.handle
  handleLt : ∀ T ∈ s.live, T.handle < s.nextHandle
  liveNodup : (s.live.map LiveTimer.handle).Nodup
  idNodup : (s.planningTasks.map PlanningTask.id).Nodup
  idLt : ∀ t ∈ s.planningTasks, t.id < s.nextId
  owned : ∀ T ∈ s.live, ∃ t ∈ s.planningTasks,
    t.id = T.taskId ∧ t.reminder.bind TaskReminder.timeoutId = some T.handle
  recLt : ∀ t ∈ s.planningTasks, (t.reminder.bind TaskReminder.timeoutId).getD 0 < s.nextHandle
  recOwn : ∀ t ∈ s.planningTasks, ∀ T ∈ s.live,
    t.reminder.bind TaskReminder.timeoutId = some T.handle → T.taskId = t.id
  timerName : ∀ T ∈ s.live, ∀ t ∈ s.planningTasks, t.id = T.taskId → T.taskName = t.name
  notifNoLive : ∀ e ∈ s.notified, ∀ T ∈ s.live, T.taskId ≠ e.1
  notifNodup : (s.notified.map Prod.fst).Nodup
  notifIdLt : ∀ e ∈ s.notified, e.1 < s.nextId
  notifName : ∀ e ∈ s.notified, ∀ t ∈ s.planningTasks, t.id = e.1 → e.2 = t.name
  notifRec : ∀ e ∈ s.notified, ∀ t ∈ s.planningTasks, t.id = e.1 →
    (t.reminder.bind TaskReminder.timeoutId).getD 0 ≠ 0

/-- An id that is gone for good: no planning task carries it, no live timer
is armed for it, and the id counter has moved past it, so it can never be
allocated again. -/
def DeadId (id : Nat) (s : AppState) : Prop :=
  (∀ t ∈ s.planningTasks, t.id ≠ id) ∧ (∀ T ∈ s.live, T.taskId ≠ id) ∧ id < s.nextId

/-- A parsed JSON value, the result of a successful `JSON.parse`. -/
inductive Json where
  | null : Json
  | bool : Bool → Json
  | num : Int → Json
  | str : String → Json
  | arr : List Json → Json
  | obj : List (String × Json) → Json

/-- Property access `o[key]` on a parsed JSON object (later duplicate keys
shadow earlier ones, as in a JS object literal; `JSON.parse` output never
has duplicates). -/
def lookupField (fields : List (String × Json)) (key : String) : Option Json :=
  (fields.reverse.find? fun f => decide (f.1 = key)).map Prod.snd

/-- Decimal digit character. -/
def digitChar (n : Nat) : Char := Char.ofNat (48 + n)

/-- Two-digit zero-padded decimal, for values below 100. -/
def pad2 (n : Nat) : List Char := [digitChar (n / 10), digitChar (n % 10)]

/-- Three-digit zero-padded decimal, for values below 1000. -/
def pad3 (n : Nat) : List Char := [digitChar (n / 100), digitChar (n / 10 % 10), digitChar (n % 10)]

/-- Four-digit zero-padded decimal, for values below 10000. -/
def pad4 (n : Nat) : List Char :=
  [digitChar (n / 1000), digitChar (n / 100 % 10), digitChar (n / 10 % 10), digitChar (n % 10)]

/-- Day-of-era of the first day (March 1) of year-of-era `y`, the running
day count behind the year-of-era extraction in `civilFromDays`. -/
def yearStartDoe (y : Nat) : Nat := 365 * y + y / 4 - y / 100

/-- Year-of-era of a day-of-era (0 ≤ doe ≤ 146096), by Hinnant's closed
formula. -/
def civilYoe (doe : Nat) : Nat :=
  (doe - doe / 1460 + doe / 36524 - doe / 146096) / 365

/-- Shifted month index of a day-of-year counted from March 1. -/
def civilMp (doy : Nat) : Nat := (5 * doy + 2) / 153

/-- Day-of-month of a day-of-year counted from March 1. -/
def civilDay (doy : Nat) : Nat := doy - (153 * civilMp doy + 2) / 5 + 1

/-- Civil month (1..12) of a day-of-year counted from March 1. -/
def civilMonth (doy : Nat) : Nat :=
  if civilMp doy < 10 then civilMp doy + 3 else civilMp doy - 9

/-- Gregorian date of day number `z` counted from 1970-01-01 (Howard
Hinnant's `civil_from_days`, shifted so the input is never negative):
returns (year, month, day). -/
def civilFromDays (z0 : Nat) : Nat × Nat × Nat :=
  let z := z0 + 719468
  let era := z / 146097
  let doe := z % 146097
  let yoe := civilYoe doe
  let doy := doe - yearStartDoe yoe
  let y := yoe + era * 400
  (if civilMonth doy ≤ 2 then y + 1 else y, civilMonth doy, civilDay doy)

/-- Day number counted from 1970-01-01 of a Gregorian date (Howard Hinnant's
`days_from_civil`), for dates from 1970 on. -/
def daysFromCivil (y m d : Nat) : Nat :=
  let y' := if m ≤ 2 then y - 1 else y
  let era := y' / 400
  let yoe := y' % 400
  let doy := (153 * (if 2 < m then m - 3 else m + 9) + 2) / 5 + d - 1
  let doe := yoe * 365 + yoe / 4 - yoe / 100 + doy
  era * 146097 + doe - 719468

/-- Models `Date.prototype.toISOString` (the serialized form
`JSON.stringify` gives a `Date`), for moments whose year is below 10000:
`YYYY-MM-DDTHH:mm:ss.sssZ`.  The model identifies local and UTC clocks
(a fixed-offset-zero local clock); no claim depends on the offset. -/
def toISOString (t : Nat) : String :=
  let days := t / msPerDay
  let ms := t % msPerDay
  let c := civilFromDays days
  String.mk
    (pad4 c.1 ++ ['-'] ++ pad2 c.2.1 ++ ['-'] ++ pad2 c.2.2 ++ ['T'] ++
     pad2 (ms / 3600000) ++ [':'] ++ pad2 (ms / 60000 % 60) ++ [':'] ++
     pad2 (ms / 1000 % 60) ++ ['.'] ++ pad3 (ms % 1000) ++ ['Z'])

/-- Decimal digit value of a character, if it is one. -/
def digitVal (c : Char) : Option Nat :=
  if '0' ≤ c ∧ c ≤ '9' then some (c.toNat - 48) else none

/-- Consume exactly `width` decimal digits, most significant first. -/
def parseFixed (acc : Nat) : Nat → List Char → Option (Nat × List Char)
  | 0, cs => some (acc, cs)
  | width + 1, c :: cs =>
    match digitVal c with
    | some v => parseFixed (acc * 10 + v) width cs
    | none => none
  | _ + 1, [] => none

/-- Consume one expected character. -/
def expectChar (ch : Char) : List Char → Option (List Char)
  | c :: cs => if c = ch then some cs else none
  | [] => none

/-- Models the ECMAScript date parser (`new Date(string)`) restricted to the
date-time format this app ever stores — the `toISOString` form
`YYYY-MM-DDTHH:mm:ss.sssZ` with a year in [1970, 9999].  Strings not of this
form are modelled as parsing to an Invalid Date (`none`); every string the
claims exercise outside the form (for example `"garbage"`) is an Invalid
Date under the real parser too. -/
def parseJsDateChars (cs : List Char) : Option Nat :=
  match parseFixed 0 4 cs with
  | none => none
  | some yr =>
  match expectChar '-' yr.2 with
  | none => none
  | some r1 =>
  match parseFixed 0 2 r1 with
  | none => none
  | some mor =>
  match expectChar '-' mor.2 with
  | none => none
  | some r2 =>
  match parseFixed 0 2 r2 with
  | none => none
  | some dr =>
  match expectChar 'T' dr.2 with
  | none => none
  | some r3 =>
  match parseFixed 0 2 r3 with
  | none => none
  | some hhr =>
  match expectChar ':' hhr.2 with
  | none => none
  | some r4 =>
  match parseFixed 0 2 r4 with
  | none => none
  | some mir =>
  match expectChar ':' mir.2 with
  | none => none
  | some r5 =>
  match parseFixed 0 2 r5 with
  | none => none
  | some ssr =>
  match expectChar '.' ssr.2 with
  | none => none
  | some r6 =>
  match parseFixed 0 3 r6 with
  | none => none
  | some msr =>
  match expectChar 'Z' msr.2 with
  | none => none
  | some [] =>
    if 1970 ≤ yr.1 && 1 ≤ mor.1 && mor.1 ≤ 12 && 1 ≤ dr.1 && dr.1 ≤ 31 &&
        hhr.1 < 24 && mir.1 < 60 && ssr.1 < 60 then
      some (daysFromCivil yr.1 mor.1 dr.1 * msPerDay +
        (hhr.1 * 3600000 + mir.1 * 60000 + ssr.1 * 1000 + msr.1))
    else none
  | some (_ :: _) => none

/-- Models the ECMAScript date parser (`new Date(string)`) restricted to the
date-time format this app ever stores, via `parseJsDateChars`. -/
def parseJsDate (s : String) : Option Nat := parseJsDateChars s.toList

/-- Models `new Date(v)` for a value read off parsed JSON: a string runs
through the date parser, a non-negative number is a millisecond count, an
absent value (`new Date(undefined)`) is an Invalid Date.  Other shapes
(null, booleans, nested values) are modelled as Invalid Dates; this app's
serializer never produces them for a date field. -/
def jsNewDate (v : Option Json) : Option Nat :=
  match v with
  | some (Json.str s) => parseJsDate s
  | some (Json.num n) => if 0 ≤ n then some n.toNat else none
  | _ => none

/-- What the load effect (App.tsx) makes of one element of the stored array:
`(t) => ({ ...t, timestamp: new Date(t.timestamp) })` — every original field
is kept verbatim except the named date field, which is replaced by a date
parsed from whatever was stored under it.  `dateValue = none` is an Invalid
Date. -/
structure LoadedRecord where
  fields : List (String × Json)
  dateValue : Option Nat

/-- The per-element map of the load effect, for date field `dateKey`
(`timestamp` for completed tasks, `createdAt` for planning tasks).
The callback can throw: property access `t.timestamp` on a `null` element
raises a `TypeError` (modelled as `none`), which escapes to the surrounding
`catch`.  Property access on any other non-object value boxes and yields
`undefined` without throwing — the app's date keys are never array or string
index keys — so the element is kept: spreading a number or boolean
contributes no own fields, spreading a string or array contributes its
index-keyed elements, and the date field becomes an Invalid Date. -/
def loadRecord (dateKey : String) (j : Json) : Option LoadedRecord :=
  match j with
  | Json.obj fields =>
    some { fields := fields.filter fun f => decide (f.1 ≠ dateKey)
           dateValue := jsNewDate (lookupField fields dateKey) }
  | Json.null => none
  | Json.str s =>
    some { fields := s.toList.enum.map fun p => (toString p.1, Json.str (String.mk [p.2]))
           dateValue := jsNewDate none }
  | Json.arr items =>
    some { fields := items.enum.map fun p => (toString p.1, p.2)
           dateValue := jsNewDate none }
  | Json.num _ => some { fields := [], dateValue := jsNewDate none }
  | Json.bool _ => some { fields := [], dateValue := jsNewDate none }

/-- `Array.prototype.map` of a callback that can throw, inside a `try`: the
first element that throws aborts the whole map, and the surrounding `catch`
sees the exception (`none`). -/
def tryMapRecords (dateKey : String) : List Json → Option (List LoadedRecord)
  | [] => some []
  | j :: rest =>
    match loadRecord dateKey j, tryMapRecords dateKey rest with
    | some r, some l => some (r :: l)
    | _, _ => none

/-- The load effect (App.tsx) for one storage key, from the result of
`JSON.parse(stored)`: on a parse error the `catch` arm logs and leaves the
collection in its initial empty state; calling `.map` on a parsed value that
is not an array throws a `TypeError` inside the same `try`, with the same
outcome, as does a `TypeError` thrown by the map callback on a `null`
element; on an array of elements the callback accepts, each is mapped by
`loadRecord`. -/
def loadCollection (dateKey : String) (parsed : Except String Json) : List LoadedRecord :=
  match parsed with
  | Except.error _ => []
  | Except.ok (Json.arr items) => (tryMapRecords dateKey items).getD []
  | Except.ok _ => []

/-- The serialized form of a priority. -/
def priorityString : Priority → String
  | Priority.high => "high"
  | Priority.medium => "medium"
  | Priority.low => "low"

/-- The JSON fields of a completed task other than its date field, in the
property order of the object literal in `handleAddTask`;
`JSON.stringify` skips an unset optional property. -/
def taskPlainFields (t : Task) : List (String × Json) :=
  [("id", Json.str (toString t.id)), ("name", Json.str t.name)] ++
    (match t.points with
     | some p => [("points", Json.num p)]
     | none => [])

/-- Models `JSON.stringify` of one completed task: plain fields plus the
`Date` field serialized through `toISOString`. -/
def stringifyTask (t : Task) : Json :=
  Json.obj
    ([("id", Json.str (toString t.id)), ("name", Json.str t.name),
      ("timestamp", Json.str (toISOString t.timestamp))] ++
     (match t.points with
      | some p => [("points", Json.num p)]
      | none => []))

/-- Models `JSON.stringify` of a reminder: every present property is
serialized, including a recorded `timeoutId` (a plain number survives
`JSON.stringify` untouched). -/
def stringifyReminder (r : TaskReminder) : Json :=
  Json.obj
    ([("enabled", Json.bool r.enabled), ("option", Json.str r.option)] ++
     (match r.customMinutes with
      | some m => [("customMinutes", Json.num m)]
      | none => []) ++
     (match r.timeoutId with
      | some h => [("timeoutId", Json.num h)]
      | none => []))

/-- The JSON fields of a planning task other than its date field. -/
def planningPlainFields (t : PlanningTask) : List (String × Json) :=
  [("id", Json.str (toString t.id)), ("name", Json.str t.name),
   ("priority", Json.str (priorityString t.priority))] ++
    (match t.reminder with
     | some r => [("reminder", stringifyReminder r)]
     | none => [])

/-- Models `JSON.stringify` of one planning task. -/
def stringifyPlanningTask (t : PlanningTask) : Json :=
  Json.obj
    ([("id", Json.str (toString t.id)), ("name", Json.str t.name),
      ("priority", Json.str (priorityString t.priority)),
      ("createdAt", Json.str (toISOString t.createdAt))] ++
     (match t.reminder with
      | some r => [("reminder", stringifyReminder r)]
      | none => []))

/-- First moment whose `toISOString` year would need five digits
(10000-01-01T00:00:00.000Z); the model covers moments below it. -/
def isoLimit : Nat := 253402300800000

/-! Theorems.  Claim theorems carry the claim id in their doc comment;
helper lemmas are shared. -/

/-- Claim C1 (counterexample): the claim states the one-shot delay for
option 'custom' is 1,800,000 ms (the 30-minute fallback) whenever
`customMinutes` is unset or non-positive; but for the negative value -5
(reachable: the PlanningTab form stores `parseInt(value) || 30`, and
`parseInt("-5") = -5` is truthy) the source computes `-5 * 60000 = -300000`
and arms a timer with that delay, not 1,800,000. -/
theorem computeDelayMs_custom_negative :
    computeDelayMs "custom" (some (-5)) = some (-300000) ∧
    scheduleReminderDelay (some ⟨true, "custom", some (-5), none⟩) = some (-300000) ∧
    ¬ computeDelayMs "custom" (some (-5)) = some 1800000 := by
  refine ⟨rfl, rfl, ?_⟩
  decide

/-- Claim C1 (amended): for an enabled reminder the computed one-shot delay
is 3,600,000 ms for '1hr' and 7,200,000 ms for '2hr'; for 'custom' the
30-minute fallback (1,800,000 ms) applies exactly when `customMinutes` is
unset or zero, and any other value m — negative included — yields
m * 60,000 ms; for any option outside the three known values no delay is
computed and no timer is armed. -/
theorem computeDelayMs_spec (cm : Option Int) :
    computeDelayMs "1hr" cm = some 3600000 ∧
    computeDelayMs "2hr" cm = some 7200000 ∧
    computeDelayMs "custom" none = some 1800000 ∧
    computeDelayMs "custom" (some 0) = some 1800000 ∧
    (∀ m : Int, ¬ m = 0 → computeDelayMs "custom" (some m) = some (m * 60000)) ∧
    (∀ opt : String, ¬ opt = "1hr" → ¬ opt = "2hr" → ¬ opt = "custom" →
      computeDelayMs opt cm = none) ∧
    (∀ r : TaskReminder, r.enabled = true →
      scheduleReminderDelay (some r) = computeDelayMs r.option r.customMinutes) ∧
    (∀ (s : AppState) (name : String) (r : TaskReminder)
        (perm : NotificationPermissionResult),
      r.enabled = true → computeDelayMs r.option r.customMinutes = none →
      (handleAddPlanningTask s name (some r) perm).live = s.live) := by
  refine ⟨rfl, rfl, rfl, rfl, ?_, ?_, ?_, ?_⟩
  · intro m hm
    simp [computeDelayMs, hm]
  · intro opt h1 h2 h3
    simp [computeDelayMs, h1, h2, h3]
  · intro r hr
    simp [scheduleReminderDelay, hr]
  · intro s name r perm hr hnone
    simp only [handleAddPlanningTask, hr, if_true, scheduleReminderDelay, hnone]
    by_cases hg : perm.granted <;> simp [hg, hnone, scheduleReminderDelay, hr]

/-- Witness for the amended C1 theorem, at the spec's own test vector:
computeDelayMs('custom', 45) = 2,700,000 and an unknown option computes no
delay. -/
theorem computeDelayMs_spec_witness :
    computeDelayMs "custom" (some 45) = some 2700000 ∧
    computeDelayMs "5min" none = none := by
  constructor
  · have h := (computeDelayMs_spec (some 45)).2.2.2.2.1 45 (by decide)
    simpa using h
  · exact (computeDelayMs_spec none).2.2.2.2.2.1 "5min" (by decide) (by decide) (by decide)

/-- The streak loop never counts more than its fuel. -/
theorem streakLoop_le_fuel (daySet : List Int) :
    ∀ (fuel : Nat) (day : Int), streakLoop daySet day fuel ≤ fuel := by
  intro fuel
  induction fuel with
  | zero => intro day; simp [streakLoop]
  | succ k ih =>
    intro day
    rw [streakLoop]
    by_cases hmem : day ∈ daySet
    · rw [if_pos hmem]
      have := ih (day - 1)
      omega
    · rw [if_neg hmem]
      omega

/-- Every day the streak loop counted is present in the day set. -/
theorem streakLoop_mem (daySet : List Int) :
    ∀ (fuel : Nat) (day : Int) (i : Nat), i < streakLoop daySet day fuel →
      (day - i) ∈ daySet := by
  intro fuel
  induction fuel with
  | zero => intro day i hi; simp [streakLoop] at hi
  | succ k ih =>
    intro day i hi
    rw [streakLoop] at hi
    by_cases hmem : day ∈ daySet
    · rw [if_pos hmem] at hi
      rcases Nat.eq_zero_or_pos i with h0 | hpos
      · subst h0; simpa using hmem
      · have h := ih (day - 1) (i - 1) (by omega)
        have hcast : ((i - 1 : Nat) : Int) = (i : Int) - 1 := by omega
        rw [hcast] at h
        have heq : day - 1 - ((i : Int) - 1) = day - i := by ring
        rw [heq] at h
        exact h
    · rw [if_neg hmem] at hi
      omega

/-- When the streak loop stops strictly inside its fuel, it stops at a day
absent from the day set. -/
theorem streakLoop_stop (daySet : List Int) :
    ∀ (fuel : Nat) (day : Int), streakLoop daySet day fuel < fuel →
      (day - streakLoop daySet day fuel) ∉ daySet := by
  intro fuel
  induction fuel with
  | zero => intro day h; omega
  | succ k ih =>
    intro day h
    rw [streakLoop] at h ⊢
    by_cases hmem : day ∈ daySet
    · rw [if_pos hmem] at h ⊢
      have h' := ih (day - 1) (by omega)
      have hcast : ((streakLoop daySet (day - 1) k + 1 : Nat) : Int) =
          ((streakLoop daySet (day - 1) k : Nat) : Int) + 1 := by omega
      rw [hcast]
      have heq : day - (((streakLoop daySet (day - 1) k : Nat) : Int) + 1) =
          day - 1 - ((streakLoop daySet (day - 1) k : Nat) : Int) := by ring
      rw [heq]
      exact h'
    · rw [if_neg hmem] at h ⊢
      simpa using hmem

/-- With fuel one more than the number of listed days, the streak loop
cannot exhaust its fuel: it cannot count length+1 distinct consecutive days
inside a list of that length. -/
theorem streakLoop_le_length (daySet : List Int) (day : Int) :
    streakLoop daySet day (daySet.length + 1) ≤ daySet.length := by
  by_contra hcon
  push_neg at hcon
  have hle := streakLoop_le_fuel daySet (daySet.length + 1) day
  have hk : streakLoop daySet day (daySet.length + 1) = daySet.length + 1 := by omega
  have hmem : ∀ i : Nat, i < daySet.length + 1 → (day - i) ∈ daySet := by
    intro i hi
    exact streakLoop_mem daySet (daySet.length + 1) day i (by omega)
  have hsub : (Finset.range (daySet.length + 1)).image (fun i : Nat => day - (i : Int)) ⊆
      daySet.toFinset := by
    intro x hx
    rw [Finset.mem_image] at hx
    obtain ⟨i, hi, rfl⟩ := hx
    rw [Finset.mem_range] at hi
    exact List.mem_toFinset.mpr (hmem i hi)
  have hcard : ((Finset.range (daySet.length + 1)).image
      (fun i : Nat => day - (i : Int))).card = daySet.length + 1 := by
    rw [Finset.card_image_of_injOn, Finset.card_range]
    intro i _ j _ hij
    simp only at hij
    omega
  have h1 : daySet.length + 1 ≤ daySet.toFinset.card := by
    rw [← hcard]
    exact Finset.card_le_card hsub
  have h2 : daySet.toFinset.card ≤ daySet.length := daySet.toFinset_card_le
  omega

/-- Every day the computed streak covers (walking back from today) carries
at least one task. -/
theorem calculateStreak_mem (tasks : List Task) (now : Nat) :
    ∀ i : Nat, i < calculateStreak tasks now →
      ∃ t ∈ tasks, (toDateStringDay t.timestamp : Int) = (toDateStringDay now : Int) - i := by
  intro i hi
  rw [calculateStreak] at hi
  split at hi
  · omega
  · have h := streakLoop_mem _ _ _ _ hi
    rw [List.mem_map] at h
    obtain ⟨t, ht, heq⟩ := h
    exact ⟨t, ht, heq⟩

/-- The day right past the computed streak carries no task: the streak stops
at the first day with zero tasks. -/
theorem calculateStreak_stop (tasks : List Task) (now : Nat) :
    ¬ ∃ t ∈ tasks, (toDateStringDay t.timestamp : Int) =
      (toDateStringDay now : Int) - calculateStreak tasks now := by
  rw [calculateStreak]
  split
  · next hnil =>
    rw [List.isEmpty_iff] at hnil
    subst hnil
    simp
  · have hll := streakLoop_le_length (tasks.map fun t => (toDateStringDay t.timestamp : Int))
      (toDateStringDay now : Int)
    rw [List.length_map] at hll
    have h := streakLoop_stop (tasks.map fun t => (toDateStringDay t.timestamp : Int))
      (tasks.length + 1) (toDateStringDay now : Int) (by omega)
    intro hcon
    obtain ⟨t, ht, heq⟩ := hcon
    exact h (List.mem_map.mpr ⟨t, ht, heq⟩)

/-- Claim C3: the streak is the number of consecutive local calendar days,
walking backward from today, each carrying at least one completed task,
stopping at the first day with zero tasks; in particular tasks on exactly
the days today, today-1, today-2 and today-4 give streak 3, and a single
task today gives streak at least 1. -/
theorem calculateStreak_spec (tasks : List Task) (now : Nat) :
    (∀ i : Nat, i < calculateStreak tasks now →
      ∃ t ∈ tasks, (toDateStringDay t.timestamp : Int) = (toDateStringDay now : Int) - i) ∧
    (¬ ∃ t ∈ tasks, (toDateStringDay t.timestamp : Int) =
      (toDateStringDay now : Int) - calculateStreak tasks now) ∧
    (∀ t1 t2 t3 t4 : Task,
      (toDateStringDay t1.timestamp : Int) = (toDateStringDay now : Int) →
      (toDateStringDay t2.timestamp : Int) = (toDateStringDay now : Int) - 1 →
      (toDateStringDay t3.timestamp : Int) = (toDateStringDay now : Int) - 2 →
      (toDateStringDay t4.timestamp : Int) = (toDateStringDay now : Int) - 4 →
      calculateStreak [t1, t2, t3, t4] now = 3) ∧
    (∀ t : Task, toDateStringDay t.timestamp = toDateStringDay now →
      1 ≤ calculateStreak [t] now) := by
  refine ⟨calculateStreak_mem tasks now, calculateStreak_stop tasks now, ?_, ?_⟩
  · intro t1 t2 t3 t4 h1 h2 h3 h4
    have hmem := calculateStreak_mem [t1, t2, t3, t4] now
    have hstop := calculateStreak_stop [t1, t2, t3, t4] now
    generalize hgen : calculateStreak [t1, t2, t3, t4] now = k at hmem hstop
    have hk4 : ¬ 4 ≤ k := by
      intro hge
      obtain ⟨t, ht, heq⟩ := hmem 3 (by omega)
      simp only [List.mem_cons, List.not_mem_nil, or_false] at ht
      rcases ht with rfl | rfl | rfl | rfl
      · rw [h1] at heq; omega
      · rw [h2] at heq; omega
      · rw [h3] at heq; omega
      · rw [h4] at heq; omega
    have hk0 : ¬ k = 0 := by
      intro h0
      subst h0
      exact hstop ⟨t1, by simp, by rw [h1]; simp⟩
    have hk1 : ¬ k = 1 := by
      intro h0
      subst h0
      exact hstop ⟨t2, by simp, by rw [h2]; simp⟩
    have hk2 : ¬ k = 2 := by
      intro h0
      subst h0
      exact hstop ⟨t3, by simp, by rw [h3]; push_cast; ring⟩
    omega
  · intro t ht
    rw [calculateStreak]
    simp only [List.isEmpty_cons, if_false, Bool.false_eq_true]
    rw [streakLoop]
    have hmem : (toDateStringDay now : Int) ∈
        [t].map fun t => (toDateStringDay t.timestamp : Int) := by
      simp [ht]
    rw [if_pos hmem]
    omega

/-- Witness for the C3 theorem at a concrete collection: tasks on days
4, 3, 2 and 0 with "now" on day 4 give streak exactly 3, and a single task
today gives streak at least 1. -/
theorem calculateStreak_spec_witness :
    calculateStreak
      [⟨0, "a", 4 * 86400000 + 100, none⟩, ⟨1, "b", 3 * 86400000 + 7, some 5⟩,
       ⟨2, "c", 2 * 86400000, none⟩, ⟨3, "d", 0, some 2⟩]
      (4 * 86400000 + 5000) = 3 ∧
    1 ≤ calculateStreak [⟨0, "a", 4 * 86400000 + 100, none⟩] (4 * 86400000 + 5000) := by
  constructor
  · exact (calculateStreak_spec [] (4 * 86400000 + 5000)).2.2.1
      ⟨0, "a", 4 * 86400000 + 100, none⟩ ⟨1, "b", 3 * 86400000 + 7, some 5⟩
      ⟨2, "c", 2 * 86400000, none⟩ ⟨3, "d", 0, some 2⟩
      (by decide) (by decide) (by decide) (by decide)
  · exact (calculateStreak_spec [] (4 * 86400000 + 5000)).2.2.2
      ⟨0, "a", 4 * 86400000 + 100, none⟩ (by decide)

/-- Folding point addition equals the initial value plus the sum of the
mapped points. -/
theorem foldl_points_eq (l : List Task) :
    ∀ init : Nat, l.foldl (fun sum t => sum + t.points.getD 0) init =
      init + (l.map fun t => t.points.getD 0).sum := by
  induction l with
  | nil => intro init; simp
  | cons t rest ih =>
    intro init
    simp only [List.foldl_cons, List.map_cons, List.sum_cons, ih]
    omega

/-- Claim C4: pointsToday is the sum of points (missing points count 0) over
exactly the tasks whose timestamp lies in [localMidnight(now),
localMidnight(now) + 1 day); a task at 00:00:01 today counts, a task at
23:59:59 today counts, and a task at 23:59:59 yesterday does not. -/
theorem totalPointsToday_spec (tasks : List Task) (now : Nat) :
    totalPointsToday tasks now =
      ((tasks.filter fun t => decide (startOfDay now ≤ t.timestamp ∧
        t.timestamp < startOfDay now + msPerDay)).map fun t => t.points.getD 0).sum ∧
    (∀ t : Task, t.timestamp = startOfDay now + 1000 → t ∈ tasksToday [t] now) ∧
    (∀ t : Task, t.timestamp = startOfDay now + (msPerDay - 1000) →
      t ∈ tasksToday [t] now) ∧
    (∀ t : Task, t.timestamp + 1000 = startOfDay now → t ∉ tasksToday [t] now) := by
  refine ⟨?_, ?_, ?_, ?_⟩
  · rw [totalPointsToday, foldl_points_eq, Nat.zero_add, tasksToday]
    have hfil : tasks.filter (fun t => decide (startOfDay now ≤ t.timestamp ∧
          t.timestamp ≤ endOfDay now)) =
        tasks.filter (fun t => decide (startOfDay now ≤ t.timestamp ∧
          t.timestamp < startOfDay now + msPerDay)) := by
      apply List.filter_congr
      intro t _
      simp only [decide_eq_decide, endOfDay, msPerDay]
      omega
    rw [hfil]
  · intro t ht
    simp [tasksToday, endOfDay, msPerDay, ht]
  · intro t ht
    simp [tasksToday, endOfDay, msPerDay, ht]
  · intro t ht
    simp only [tasksToday, List.mem_filter, List.mem_cons, decide_eq_true_eq]
    intro hcon
    omega

/-- Witness for the C4 theorem at a concrete collection and moment: tasks of
5, 7 and 100 points, the 100-point one from yesterday, on day 3. -/
theorem totalPointsToday_spec_witness :
    totalPointsToday
      [⟨0, "a", 3 * 86400000 + 1000, some 5⟩, ⟨1, "b", 3 * 86400000 + 86399000, some 7⟩,
       ⟨2, "c", 3 * 86400000 - 1000, some 100⟩]
      (3 * 86400000 + 43200000) = 12 ∧
    (⟨0, "a", 3 * 86400000 + 1000, some 5⟩ : Task) ∈
      tasksToday [⟨0, "a", 3 * 86400000 + 1000, some 5⟩] (3 * 86400000 + 43200000) := by
  constructor
  · have h := (totalPointsToday_spec
      [⟨0, "a", 3 * 86400000 + 1000, some 5⟩, ⟨1, "b", 3 * 86400000 + 86399000, some 7⟩,
       ⟨2, "c", 3 * 86400000 - 1000, some 100⟩]
      (3 * 86400000 + 43200000)).1
    rw [h]
    decide
  · exact (totalPointsToday_spec [] (3 * 86400000 + 43200000)).2.1
      ⟨0, "a", 3 * 86400000 + 1000, some 5⟩ (by decide)

/-- In a list of planning tasks with pairwise distinct ids, membership with
equal ids forces equality. -/
theorem planning_eq_of_id_eq {l : List PlanningTask}
    (hnd : (l.map PlanningTask.id).Nodup) {a b : PlanningTask}
    (ha : a ∈ l) (hb : b ∈ l) (h : a.id = b.id) : a = b :=
  List.inj_on_of_nodup_map hnd ha hb h

/-- In a list of timers with pairwise distinct handles, membership with
equal handles forces equality. -/
theorem timer_eq_of_handle_eq {l : List LiveTimer}
    (hnd : (l.map LiveTimer.handle).Nodup) {a b : LiveTimer}
    (ha : a ∈ l) (hb : b ∈ l) (h : a.handle = b.handle) : a = b :=
  List.inj_on_of_nodup_map hnd ha hb h

/-- Under the invariant, two live timers for the same task coincide. -/
theorem Inv.timer_unique {s : AppState} (hInv : Inv s) {T1 T2 : LiveTimer}
    (h1 : T1 ∈ s.live) (h2 : T2 ∈ s.live) (h : T1.taskId = T2.taskId) : T1 = T2 := by
  obtain ⟨t1, ht1, hid1, hrec1⟩ := hInv.owned T1 h1
  obtain ⟨t2, ht2, hid2, hrec2⟩ := hInv.owned T2 h2
  have hteq : t1 = t2 := planning_eq_of_id_eq hInv.idNodup ht1 ht2 (by rw [hid1, hid2, h])
  subst hteq
  have hh : T1.handle = T2.handle := by
    rw [hrec1] at hrec2
    exact Option.some.inj hrec2
  exact timer_eq_of_handle_eq hInv.liveNodup h1 h2 hh

/-- The invariant holds in the initial state. -/
theorem inv_init : Inv initState := by
  constructor <;> simp [initState]

/-- Adding a completed task preserves the invariant. -/
theorem inv_addTask {s : AppState} (hInv : Inv s) (name : String) (points : Option Nat) :
    Inv (handleAddTask s name points) := by
  obtain ⟨f1, f2, f3, f4, f5, f6, f7, f8, f9, f10, f11, f12, f13, f14, f15⟩ := hInv
  refine ⟨f1, f2, f3, f4, f5, ?_, f7, f8, f9, f10, f11, f12, ?_, f14, f15⟩
  · intro t ht
    have := f6 t ht
    simp only [handleAddTask] at *
    omega
  · intro e he
    have := f13 e he
    simp only [handleAddTask] at *
    omega

/-- Re-prioritising preserves the invariant: the map changes only the
priority field. -/
theorem inv_updatePriority {s : AppState} (hInv : Inv s) (taskId : Nat) (p : Priority) :
    Inv (handleUpdatePlanningTaskPriority s taskId p) := by
  obtain ⟨f1, f2, f3, f4, f5, f6, f7, f8, f9, f10, f11, f12, f13, f14, f15⟩ := hInv
  have hmap : ∀ t : PlanningTask,
      (if t.id = taskId then { t with priority := p } else t).id = t.id ∧
      (if t.id = taskId then { t with priority := p } else t).name = t.name ∧
      (if t.id = taskId then { t with priority := p } else t).reminder = t.reminder := by
    intro t
    by_cases h : t.id = taskId <;> simp [h]
  have hmm : ∀ t' ∈ (handleUpdatePlanningTaskPriority s taskId p).planningTasks,
      ∃ t ∈ s.planningTasks, t'.id = t.id ∧ t'.name = t.name ∧ t'.reminder = t.reminder := by
    intro t' ht'
    simp only [handleUpdatePlanningTaskPriority, List.mem_map] at ht'
    obtain ⟨t, ht, rfl⟩ := ht'
    exact ⟨t, ht, (hmap t).1, (hmap t).2.1, (hmap t).2.2⟩
  have hids : (handleUpdatePlanningTaskPriority s taskId p).planningTasks.map
      PlanningTask.id = s.planningTasks.map PlanningTask.id := by
    simp only [handleUpdatePlanningTaskPriority, List.map_map]
    apply List.map_congr_left
    intro t _
    exact (hmap t).1
  refine ⟨f1, f2, f3, f4, ?_, ?_, ?_, ?_, ?_, ?_, f11, f12, f13, ?_, ?_⟩
  · rw [hids]; exact f5
  · intro t' ht'
    obtain ⟨t, ht, hid, _, _⟩ := hmm t' ht'
    rw [hid]; exact f6 t ht
  · intro T hT
    obtain ⟨t, ht, hid, hrec⟩ := f7 T hT
    refine ⟨if t.id = taskId then { t with priority := p } else t, ?_, ?_, ?_⟩
    · simp only [handleUpdatePlanningTaskPriority, List.mem_map]
      exact ⟨t, ht, rfl⟩
    · rw [(hmap t).1]; exact hid
    · rw [(hmap t).2.2]; exact hrec
  · intro t' ht'
    obtain ⟨t, ht, _, _, hrem⟩ := hmm t' ht'
    rw [hrem]; exact f8 t ht
  · intro t' ht' T hT hrec
    obtain ⟨t, ht, hid, _, hrem⟩ := hmm t' ht'
    rw [hid]
    rw [hrem] at hrec
    exact f9 t ht T hT hrec
  · intro T hT t' ht' hid
    obtain ⟨t, ht, hid', hname, _⟩ := hmm t' ht'
    rw [hname]
    exact f10 T hT t ht (by rw [← hid', hid])
  · intro e he t' ht' hid
    obtain ⟨t, ht, hid', hname, _⟩ := hmm t' ht'
    rw [hname]
    exact f14 e he t ht (by rw [← hid', hid])
  · intro e he t' ht' hid
    obtain ⟨t, ht, hid', _, hrem⟩ := hmm t' ht'
    rw [hrem]
    exact f15 e he t ht (by rw [← hid', hid])

/-- The clock ticking preserves the invariant. -/
theorem inv_tick {s : AppState} (hInv : Inv s) (d : Nat) :
    Inv { s with now := s.now + d } := by
  obtain ⟨f1, f2, f3, f4, f5, f6, f7, f8, f9, f10, f11, f12, f13, f14, f15⟩ := hInv
  exact ⟨f1, f2, f3, f4, f5, f6, f7, f8, f9, f10, f11, f12, f13, f14, f15⟩

/-- A page reload (timers and notifications do not survive) preserves the
invariant. -/
theorem inv_reload {s : AppState} (hInv : Inv s) :
    Inv { s with live := [], notified := [] } := by
  obtain ⟨f1, f2, f3, f4, f5, f6, f7, f8, f9, f10, f11, f12, f13, f14, f15⟩ := hInv
  refine ⟨f1, ?_, ?_, ?_, f5, f6, ?_, f8, ?_, ?_, ?_, ?_, ?_, ?_, ?_⟩ <;> simp

/-- Closing the notification for a task preserves the invariant. -/
theorem inv_close {s : AppState} (hInv : Inv s) (taskId : Nat) :
    Inv (closeNotification s taskId) := by
  obtain ⟨f1, f2, f3, f4, f5, f6, f7, f8, f9, f10, f11, f12, f13, f14, f15⟩ := hInv
  have hsub : ∀ e ∈ (closeNotification s taskId).notified, e ∈ s.notified := by
    intro e he
    simp only [closeNotification, List.mem_filter] at he
    exact he.1
  refine ⟨f1, f2, f3, f4, f5, f6, f7, f8, f9, f10, ?_, ?_, ?_, ?_, ?_⟩
  · intro e he T hT
    exact f11 e (hsub e he) T hT
  · simp only [closeNotification]
    exact (List.Sublist.map Prod.fst (List.filter_sublist _)).nodup f12
  · intro e he
    exact f13 e (hsub e he)
  · intro e he t ht hid
    exact f14 e (hsub e he) t ht hid
  · intro e he t ht hid
    exact f15 e (hsub e he) t ht hid

/-- Building the invariant for a state whose planning collection lost the
task `taskId`, whose live timers are a taskId-free subset of the old ones,
and whose other components are untouched. -/
theorem inv_delete_build {s : AppState} (hInv : Inv s) (taskId : Nat) (s' : AppState)
    (hplan : s'.planningTasks = s.planningTasks.filter fun t => decide (¬ t.id = taskId))
    (hlive_sub : ∀ T ∈ s'.live, T ∈ s.live ∧ ¬ T.taskId = taskId)
    (hnodup : (s'.live.map LiveTimer.handle).Nodup)
    (hnotif : s'.notified = s.notified)
    (hnh : s'.nextHandle = s.nextHandle) (hni : s'.nextId = s.nextId) : Inv s' := by
  have hplan_sub : ∀ t ∈ s'.planningTasks, t ∈ s.planningTasks ∧ ¬ t.id = taskId := by
    intro t ht
    rw [hplan] at ht
    rw [List.mem_filter] at ht
    exact ⟨ht.1, by simpa using ht.2⟩
  refine ⟨?_, ?_, ?_, hnodup, ?_, ?_, ?_, ?_, ?_, ?_, ?_, ?_, ?_, ?_, ?_⟩
  · rw [hnh]; exact hInv.nextHandlePos
  · intro T hT
    exact hInv.handlePos T (hlive_sub T hT).1
  · intro T hT
    rw [hnh]
    exact hInv.handleLt T (hlive_sub T hT).1
  · rw [hplan]
    exact (List.Sublist.map PlanningTask.id (List.filter_sublist _)).nodup hInv.idNodup
  · intro t ht
    rw [hni]
    exact hInv.idLt t (hplan_sub t ht).1
  · intro T hT
    obtain ⟨hTs, hTneq⟩ := hlive_sub T hT
    obtain ⟨t, ht, hid, hrec⟩ := hInv.owned T hTs
    refine ⟨t, ?_, hid, hrec⟩
    rw [hplan, List.mem_filter]
    refine ⟨ht, ?_⟩
    simp only [decide_eq_true_eq]
    rw [hid]
    exact hTneq
  · intro t ht
    rw [hnh]
    exact hInv.recLt t (hplan_sub t ht).1
  · intro t ht T hT hrec
    exact hInv.recOwn t (hplan_sub t ht).1 T (hlive_sub T hT).1 hrec
  · intro T hT t ht hid
    exact hInv.timerName T (hlive_sub T hT).1 t (hplan_sub t ht).1 hid
  · intro e he T hT
    rw [hnotif] at he
    exact hInv.notifNoLive e he T (hlive_sub T hT).1
  · rw [hnotif]; exact hInv.notifNodup
  · intro e he
    rw [hnotif] at he
    rw [hni]
    exact hInv.notifIdLt e he
  · intro e he t ht hid
    rw [hnotif] at he
    exact hInv.notifName e he t (hplan_sub t ht).1 hid
  · intro e he t ht hid
    rw [hnotif] at he
    exact hInv.notifRec e he t (hplan_sub t ht).1 hid

/-- Deleting a planning task preserves the invariant. -/
theorem inv_deleteTask {s : AppState} (hInv : Inv s) (taskId : Nat) :
    Inv (handleDeletePlanningTask s taskId) := by
  have hnolive_of_stale : ∀ (t : PlanningTask), t ∈ s.planningTasks → t.id = taskId →
      ∀ T ∈ s.live, T.taskId = taskId →
      t.reminder.bind TaskReminder.timeoutId = some T.handle := by
    intro t ht htid T hT hTid
    obtain ⟨t3, ht3, hid3, hrec3⟩ := hInv.owned T hT
    have heq : t3 = t := planning_eq_of_id_eq hInv.idNodup ht3 ht (by rw [hid3, hTid, htid])
    subst heq
    exact hrec3
  rcases hfind : s.planningTasks.find? (fun t => decide (t.id = taskId)) with _ | t
  · -- no task with this id: nothing to clear, and no live timer can carry it
    have hnone : ∀ t ∈ s.planningTasks, ¬ t.id = taskId := by
      intro t ht
      have := List.find?_eq_none.mp hfind t ht
      simpa using this
    simp only [handleDeletePlanningTask, hfind]
    refine inv_delete_build hInv taskId _ rfl ?_ hInv.liveNodup rfl rfl rfl
    intro T hT
    refine ⟨hT, ?_⟩
    intro hTid
    obtain ⟨t3, ht3, hid3, _⟩ := hInv.owned T hT
    exact hnone t3 ht3 (by rw [hid3, hTid])
  · have ht : t ∈ s.planningTasks := List.mem_of_find?_eq_some hfind
    have htid : t.id = taskId := by simpa using List.find?_some hfind
    simp only [handleDeletePlanningTask, hfind]
    rcases hrec : t.reminder.bind TaskReminder.timeoutId with _ | h
    all_goals dsimp only
    · -- the task records no handle, so it owns no live timer
      refine inv_delete_build hInv taskId _ rfl ?_ hInv.liveNodup rfl rfl rfl
      intro T hT
      refine ⟨hT, ?_⟩
      intro hTid
      have := hnolive_of_stale t ht htid T hT hTid
      rw [hrec] at this
      exact Option.noConfusion this
    · -- a recorded truthy handle is cleared; it is the only possible live
      -- timer for the id
      by_cases h0 : h ≠ 0
      · rw [if_pos h0]
        refine inv_delete_build hInv taskId _ rfl ?_ ?_ rfl rfl rfl
        · intro T hT
          simp only [jsClearTimeout, List.mem_filter, decide_eq_true_eq] at hT
          obtain ⟨hT, hTh⟩ := hT
          refine ⟨hT, ?_⟩
          intro hTid
          have := hnolive_of_stale t ht htid T hT hTid
          rw [hrec] at this
          exact hTh (Option.some.inj this).symm
        · simp only [jsClearTimeout]
          exact (List.Sublist.map LiveTimer.handle (List.filter_sublist _)).nodup hInv.liveNodup
      · rw [if_neg h0]
        push_neg at h0
        subst h0
        refine inv_delete_build hInv taskId _ rfl ?_ hInv.liveNodup rfl rfl rfl
        intro T hT
        refine ⟨hT, ?_⟩
        intro hTid
        have hrec0 := hnolive_of_stale t ht htid T hT hTid
        rw [hrec] at hrec0
        have := hInv.handlePos T hT
        have := Option.some.inj hrec0
        omega

/-- A timer firing preserves the invariant. -/
theorem inv_fire {s : AppState} (hInv : Inv s) (timer : LiveTimer) (hT : timer ∈ s.live) :
    Inv (fireTimer s timer) := by
  obtain ⟨towner, htowner, hidowner, hrecowner⟩ := hInv.owned timer hT
  have hsurv : ∀ T ∈ (fireTimer s timer).live, T ∈ s.live ∧ ¬ T.handle = timer.handle := by
    intro T hT'
    simp only [fireTimer, List.mem_filter, decide_eq_true_eq] at hT'
    exact hT'
  refine ⟨hInv.nextHandlePos, ?_, ?_, ?_, hInv.idNodup, hInv.idLt, ?_, hInv.recLt, ?_, ?_,
    ?_, ?_, ?_, ?_, ?_⟩
  · intro T hT'
    exact hInv.handlePos T (hsurv T hT').1
  · intro T hT'
    exact hInv.handleLt T (hsurv T hT').1
  · simp only [fireTimer]
    exact (List.Sublist.map LiveTimer.handle (List.filter_sublist _)).nodup hInv.liveNodup
  · intro T hT'
    exact hInv.owned T (hsurv T hT').1
  · intro t ht T hT' hrec
    exact hInv.recOwn t ht T (hsurv T hT').1 hrec
  · intro T hT' t ht hid
    exact hInv.timerName T (hsurv T hT').1 t ht hid
  · -- no surviving live timer carries the fired task's id
    intro e he T hT'
    simp only [fireTimer, List.mem_cons] at he
    rcases he with rfl | he
    · intro hTid
      have := hInv.timer_unique (hsurv T hT').1 hT hTid
      subst this
      exact (hsurv T hT').2 rfl
    · exact hInv.notifNoLive e he T (hsurv T hT').1
  · -- the fired task id was not already notified
    simp only [fireTimer, List.map_cons, List.nodup_cons]
    refine ⟨?_, hInv.notifNodup⟩
    intro hmem
    rw [List.mem_map] at hmem
    obtain ⟨e, he, heid⟩ := hmem
    exact hInv.notifNoLive e he timer hT heid.symm
  · intro e he
    simp only [fireTimer, List.mem_cons] at he
    rcases he with rfl | he
    · rw [← hidowner]
      exact hInv.idLt towner htowner
    · exact hInv.notifIdLt e he
  · intro e he t ht hid
    simp only [fireTimer, List.mem_cons] at he
    rcases he with rfl | he
    · exact hInv.timerName timer hT t ht hid
    · exact hInv.notifName e he t ht hid
  · intro e he t ht hid
    simp only [fireTimer, List.mem_cons] at he
    rcases he with rfl | he
    · have : t = towner := planning_eq_of_id_eq hInv.idNodup ht htowner (by rw [hid, hidowner])
      subst this
      rw [hrecowner]
      have := hInv.handlePos timer hT
      simp only [Option.getD_some]
      omega
    · exact hInv.notifRec e he t ht hid
/-- Inverting a successful restore computation: the reminder is present,
enabled, and records no truthy handle. -/
theorem restoreDelay_some_inv {now createdAt : Nat} {rem : Option TaskReminder} {d : Int}
    (h : restoreDelay now createdAt rem = some d) :
    ∃ r, rem = some r ∧ r.enabled = true ∧ r.timeoutId.getD 0 = 0 := by
  match rem, h with
  | some r, h =>
    refine ⟨r, rfl, ?_⟩
    rw [restoreDelay] at h
    by_cases hc : r.enabled = true ∧ r.timeoutId.getD 0 = 0
    · exact hc
    · rw [if_neg hc] at h
      exact Option.noConfusion h

/-- Building the invariant for a state that armed a fresh timer for `task`
and recorded the fresh handle on it, where `task` had no live timer, and
whose notification list `n'` is a duplicate-free selection of old entries
avoiding `task.id`. -/
theorem inv_arm_build {s : AppState} (hInv : Inv s) (task : PlanningTask)
    (htask : task ∈ s.planningTasks) (hrem : task.reminder.isSome = true)
    (hnoLive : ∀ T ∈ s.live, ¬ T.taskId = task.id)
    (fireAt : Int) (n' : List (Nat × String))
    (hn'sub : ∀ e ∈ n', e ∈ s.notified ∧ ¬ e.1 = task.id)
    (hn'nodup : (n'.map Prod.fst).Nodup) :
    Inv { tasks := s.tasks,
          planningTasks := s.planningTasks.map fun t =>
            if t.id = task.id ∧ t.reminder.isSome then
              { t with reminder := t.reminder.map fun r =>
                  { r with timeoutId := some s.nextHandle } }
            else t,
          live := ⟨s.nextHandle, task.id, task.name, fireAt⟩ :: s.live,
          notified := n',
          nextHandle := s.nextHandle + 1,
          nextId := s.nextId,
          now := s.now } := by
  set upd : PlanningTask → PlanningTask := fun t =>
    if t.id = task.id ∧ t.reminder.isSome then
      { t with reminder := t.reminder.map fun r => { r with timeoutId := some s.nextHandle } }
    else t with hupd
  have hupd_id : ∀ t, (upd t).id = t.id := by
    intro t
    rw [hupd]
    by_cases h : t.id = task.id ∧ t.reminder.isSome <;> simp [h]
  have hupd_name : ∀ t, (upd t).name = t.name := by
    intro t
    rw [hupd]
    by_cases h : t.id = task.id ∧ t.reminder.isSome <;> simp [h]
  have hupd_rec : ∀ t, (upd t).reminder.bind TaskReminder.timeoutId =
      (if t.id = task.id ∧ t.reminder.isSome then some s.nextHandle
       else t.reminder.bind TaskReminder.timeoutId) := by
    intro t
    simp only [hupd]
    by_cases h : t.id = task.id ∧ t.reminder.isSome
    · rw [if_pos h, if_pos h]
      obtain ⟨_, hsome⟩ := h
      match ht : t.reminder, hsome with
      | some r, _ => simp
    · rw [if_neg h, if_neg h]
  have hmm : ∀ t' ∈ s.planningTasks.map upd, ∃ t ∈ s.planningTasks, t' = upd t := by
    intro t' ht'
    rw [List.mem_map] at ht'
    obtain ⟨t, ht, rfl⟩ := ht'
    exact ⟨t, ht, rfl⟩
  have hids : (s.planningTasks.map upd).map PlanningTask.id =
      s.planningTasks.map PlanningTask.id := by
    rw [List.map_map]
    apply List.map_congr_left
    intro t _
    exact hupd_id t
  have htask_upd : upd task ∈ s.planningTasks.map upd := List.mem_map_of_mem upd htask
  have htask_upd_rec : (upd task).reminder.bind TaskReminder.timeoutId =
      some s.nextHandle := by
    rw [hupd_rec task, if_pos ⟨rfl, hrem⟩]
  have hother : ∀ t ∈ s.planningTasks, ¬ t.id = task.id → upd t = t := by
    intro t _ hne
    simp only [hupd]
    rw [if_neg]
    intro hcon
    exact hne hcon.1
  refine ⟨?_, ?_, ?_, ?_, ?_, ?_, ?_, ?_, ?_, ?_, ?_, hn'nodup, ?_, ?_, ?_⟩
  · simp
  · intro T hT
    simp only [List.mem_cons] at hT
    rcases hT with rfl | hT
    · have := hInv.nextHandlePos
      simpa using this
    · exact hInv.handlePos T hT
  · intro T hT
    simp only [List.mem_cons] at hT
    rcases hT with rfl | hT
    · simp
    · have := hInv.handleLt T hT
      simp only
      omega
  · simp only [List.map_cons, List.nodup_cons]
    refine ⟨?_, hInv.liveNodup⟩
    intro hmem
    rw [List.mem_map] at hmem
    obtain ⟨T, hT, hTh⟩ := hmem
    have := hInv.handleLt T hT
    omega
  · simp only
    rw [hids]
    exact hInv.idNodup
  · intro t' ht'
    obtain ⟨t, ht, rfl⟩ := hmm t' ht'
    rw [hupd_id t]
    exact hInv.idLt t ht
  · intro T hT
    simp only [List.mem_cons] at hT
    rcases hT with rfl | hT
    · exact ⟨upd task, htask_upd, by rw [hupd_id task], htask_upd_rec⟩
    · obtain ⟨t, ht, hid, hrec⟩ := hInv.owned T hT
      have hne : ¬ t.id = task.id := by
        intro hcon
        exact hnoLive T hT (by rw [← hid, hcon])
      refine ⟨upd t, List.mem_map_of_mem upd ht, ?_, ?_⟩
      · rw [hupd_id t]; exact hid
      · rw [hother t ht hne]; exact hrec
  · intro t' ht'
    obtain ⟨t, ht, rfl⟩ := hmm t' ht'
    rw [hupd_rec t]
    by_cases h : t.id = task.id ∧ t.reminder.isSome
    · rw [if_pos h]
      simp
    · rw [if_neg h]
      have := hInv.recLt t ht
      simp only
      omega
  · intro t' ht' T hT hrec
    obtain ⟨t, ht, rfl⟩ := hmm t' ht'
    simp only [List.mem_cons] at hT
    rw [hupd_rec t] at hrec
    by_cases h : t.id = task.id ∧ t.reminder.isSome
    · rw [if_pos h] at hrec
      rcases hT with rfl | hT
      · rw [hupd_id t]
        simp only
        exact h.1.symm ▸ rfl
      · exfalso
        have := hInv.handleLt T hT
        have hh := (Option.some.inj hrec).symm
        simp only at hh
        omega
    · rw [if_neg h] at hrec
      rcases hT with rfl | hT
      · exfalso
        have := hInv.recLt t ht
        rw [hrec] at this
        simp only [Option.getD_some] at this
        omega
      · rw [hupd_id t]
        exact hInv.recOwn t ht T hT hrec
  · intro T hT t' ht' hid
    obtain ⟨t, ht, rfl⟩ := hmm t' ht'
    rw [hupd_id t] at hid
    simp only [List.mem_cons] at hT
    rcases hT with rfl | hT
    · simp only at hid ⊢
      have : t = task := planning_eq_of_id_eq hInv.idNodup ht htask hid
      subst this
      rw [hupd_name t]
    · rw [hupd_name t]
      exact hInv.timerName T hT t ht hid
  · intro e he T hT
    obtain ⟨hemem, heid⟩ := hn'sub e he
    simp only [List.mem_cons] at hT
    rcases hT with rfl | hT
    · simp only
      intro hcon
      exact heid hcon.symm
    · exact hInv.notifNoLive e hemem T hT
  · intro e he
    exact hInv.notifIdLt e (hn'sub e he).1
  · intro e he t' ht' hid
    obtain ⟨t, ht, rfl⟩ := hmm t' ht'
    rw [hupd_id t] at hid
    rw [hupd_name t]
    exact hInv.notifName e (hn'sub e he).1 t ht hid
  · intro e he t' ht' hid
    obtain ⟨t, ht, rfl⟩ := hmm t' ht'
    rw [hupd_id t] at hid
    rw [hupd_rec t]
    by_cases h : t.id = task.id ∧ t.reminder.isSome
    · rw [if_pos h]
      have := hInv.nextHandlePos
      simp only [Option.getD_some]
      omega
    · rw [if_neg h]
      exact hInv.notifRec e (hn'sub e he).1 t ht hid
/-- The restore-reminders effect preserves the invariant. -/
theorem inv_restore {s : AppState} (hInv : Inv s) (task : PlanningTask)
    (htask : task ∈ s.planningTasks) : Inv (applyRestore s task) := by
  rcases hres : restoreDelay s.now task.createdAt task.reminder with _ | remaining
  · simp only [applyRestore, hres]
    exact hInv
  · obtain ⟨r, hr, _, hfalsy⟩ := restoreDelay_some_inv hres
    have hrem : task.reminder.isSome = true := by rw [hr]; rfl
    have hbind : task.reminder.bind TaskReminder.timeoutId = r.timeoutId := by
      rw [hr]; rfl
    have hnoLive : ∀ T ∈ s.live, ¬ T.taskId = task.id := by
      intro T hT hTid
      obtain ⟨t3, ht3, hid3, hrec3⟩ := hInv.owned T hT
      have heq : t3 = task := planning_eq_of_id_eq hInv.idNodup ht3 htask (by rw [hid3, hTid])
      subst heq
      rw [hbind] at hrec3
      rw [hrec3] at hfalsy
      have := hInv.handlePos T hT
      simp only [Option.getD_some] at hfalsy
      omega
    have hsub : ∀ e ∈ s.notified, e ∈ s.notified ∧ ¬ e.1 = task.id := by
      intro e he
      refine ⟨he, ?_⟩
      intro hcon
      have := hInv.notifRec e he task htask hcon.symm
      rw [hbind] at this
      exact this hfalsy
    simp only [applyRestore, hres, jsSetTimeout]
    exact inv_arm_build hInv task htask hrem hnoLive ((s.now : Int) + remaining)
      s.notified hsub hInv.notifNodup

/-- Snoozing from a delivered notification (and closing it) preserves the
invariant. -/
theorem inv_snooze_comp {s : AppState} (hInv : Inv s) {taskId : Nat} {nm : String}
    (hmem : (taskId, nm) ∈ s.notified) :
    Inv (closeNotification (handleSnooze s taskId) taskId) := by
  rcases hfind : s.planningTasks.find? (fun t => decide (t.id = taskId)) with _ | task
  · simp only [handleSnooze, hfind]
    exact inv_close hInv taskId
  · have ht : task ∈ s.planningTasks := List.mem_of_find?_eq_some hfind
    have htid : task.id = taskId := by simpa using List.find?_some hfind
    subst htid
    rcases hr : task.reminder with _ | r
    · simp only [handleSnooze, hfind, hr]
      exact inv_close hInv task.id
    · have hrem : task.reminder.isSome = true := by rw [hr]; rfl
      have hnoLive : ∀ T ∈ s.live, ¬ T.taskId = task.id :=
        fun T hT => hInv.notifNoLive (task.id, nm) hmem T hT
      have hsub : ∀ e ∈ (s.notified.filter fun e => decide (¬ e.1 = task.id)),
          e ∈ s.notified ∧ ¬ e.1 = task.id := by
        intro e he
        rw [List.mem_filter] at he
        exact ⟨he.1, by simpa using he.2⟩
      have hnodup : ((s.notified.filter fun e => decide (¬ e.1 = task.id)).map
          Prod.fst).Nodup :=
        (List.Sublist.map Prod.fst (List.filter_sublist _)).nodup hInv.notifNodup
      simp only [handleSnooze, hfind, hr, closeNotification, jsSetTimeout]
      exact inv_arm_build hInv task ht hrem hnoLive ((s.now : Int) + 900000)
        _ hsub hnodup

/-- Appending a freshly-created planning task that records no timer handle
preserves the invariant. -/
theorem inv_append_plain {s : AppState} (hInv : Inv s) (task : PlanningTask)
    (hid : task.id = s.nextId)
    (hrec : task.reminder.bind TaskReminder.timeoutId = none) :
    Inv { s with planningTasks := s.planningTasks ++ [task], nextId := s.nextId + 1 } := by
  have hmm : ∀ t ∈ s.planningTasks ++ [task], t ∈ s.planningTasks ∨ t = task := by
    intro t ht
    rw [List.mem_append] at ht
    rcases ht with ht | ht
    · exact Or.inl ht
    · exact Or.inr (by simpa using ht)
  refine ⟨hInv.nextHandlePos, hInv.handlePos, hInv.handleLt, hInv.liveNodup, ?_, ?_, ?_,
    ?_, ?_, ?_, hInv.notifNoLive, hInv.notifNodup, ?_, ?_, ?_⟩
  · simp only [List.map_append, List.map_cons, List.map_nil]
    rw [List.nodup_append]
    refine ⟨hInv.idNodup, List.nodup_singleton _, ?_⟩
    intro a ha hb
    simp only [List.mem_singleton] at hb
    rw [List.mem_map] at ha
    obtain ⟨t, ht, rfl⟩ := ha
    have := hInv.idLt t ht
    omega
  · intro t ht
    rcases hmm t ht with ht' | rfl
    · have := hInv.idLt t ht'
      simp only
      omega
    · simp only [hid]
      omega
  · intro T hT
    obtain ⟨t, ht, hidT, hrecT⟩ := hInv.owned T hT
    exact ⟨t, List.mem_append_left _ ht, hidT, hrecT⟩
  · intro t ht
    rcases hmm t ht with ht' | rfl
    · exact hInv.recLt t ht'
    · rw [hrec]
      simp only [Option.getD_none]
      exact hInv.nextHandlePos
  · intro t ht T hT hrecT
    rcases hmm t ht with ht' | rfl
    · exact hInv.recOwn t ht' T hT hrecT
    · rw [hrec] at hrecT
      exact Option.noConfusion hrecT
  · intro T hT t ht hidT
    rcases hmm t ht with ht' | rfl
    · exact hInv.timerName T hT t ht' hidT
    · exfalso
      obtain ⟨t3, ht3, hid3, _⟩ := hInv.owned T hT
      have := hInv.idLt t3 ht3
      rw [hid3, ← hidT, hid] at this
      omega
  · intro e he
    have := hInv.notifIdLt e he
    simp only
    omega
  · intro e he t ht hidT
    rcases hmm t ht with ht' | rfl
    · exact hInv.notifName e he t ht' hidT
    · exfalso
      have := hInv.notifIdLt e he
      rw [← hidT, hid] at this
      omega
  · intro e he t ht hidT
    rcases hmm t ht with ht' | rfl
    · exact hInv.notifRec e he t ht' hidT
    · exfalso
      have := hInv.notifIdLt e he
      rw [← hidT, hid] at this
      omega

/-- Appending a freshly-created planning task together with its freshly
armed timer (the granted-permission path) preserves the invariant. -/
theorem inv_append_armed {s : AppState} (hInv : Inv s) (name : String)
    (r : TaskReminder) (fireAt : Int) :
    Inv { tasks := s.tasks,
          planningTasks := s.planningTasks ++
            [{ id := s.nextId, name := name, priority := Priority.low,
               createdAt := s.now,
               reminder := some { r with timeoutId := some s.nextHandle } }],
          live := ⟨s.nextHandle, s.nextId, name, fireAt⟩ :: s.live,
          notified := s.notified,
          nextHandle := s.nextHandle + 1,
          nextId := s.nextId + 1,
          now := s.now } := by
  set task : PlanningTask :=
    { id := s.nextId, name := name, priority := Priority.low, createdAt := s.now,
      reminder := some { r with timeoutId := some s.nextHandle } } with htaskdef
  have hmm : ∀ t ∈ s.planningTasks ++ [task], t ∈ s.planningTasks ∨ t = task := by
    intro t ht
    rw [List.mem_append] at ht
    rcases ht with ht | ht
    · exact Or.inl ht
    · exact Or.inr (by simpa using ht)
  refine ⟨?_, ?_, ?_, ?_, ?_, ?_, ?_, ?_, ?_, ?_, ?_, hInv.notifNodup, ?_, ?_, ?_⟩
  · simp
  · intro T hT
    simp only [List.mem_cons] at hT
    rcases hT with rfl | hT
    · have := hInv.nextHandlePos
      simpa using this
    · exact hInv.handlePos T hT
  · intro T hT
    simp only [List.mem_cons] at hT
    rcases hT with rfl | hT
    · simp
    · have := hInv.handleLt T hT
      simp only
      omega
  · simp only [List.map_cons, List.nodup_cons]
    refine ⟨?_, hInv.liveNodup⟩
    intro hmem2
    rw [List.mem_map] at hmem2
    obtain ⟨T, hT, hTh⟩ := hmem2
    have := hInv.handleLt T hT
    omega
  · simp only [List.map_append, List.map_cons, List.map_nil]
    rw [List.nodup_append]
    refine ⟨hInv.idNodup, List.nodup_singleton _, ?_⟩
    intro a ha hb
    simp only [List.mem_singleton] at hb
    rw [List.mem_map] at ha
    obtain ⟨t, ht, rfl⟩ := ha
    have := hInv.idLt t ht
    omega
  · intro t ht
    rcases hmm t ht with ht' | rfl
    · have := hInv.idLt t ht'
      simp only
      omega
    · rw [htaskdef]
      simp only
      omega
  · intro T hT
    simp only [List.mem_cons] at hT
    rcases hT with rfl | hT
    · exact ⟨task, List.mem_append_right _ (by simp), by rw [htaskdef], by rw [htaskdef]; rfl⟩
    · obtain ⟨t, ht, hidT, hrecT⟩ := hInv.owned T hT
      exact ⟨t, List.mem_append_left _ ht, hidT, hrecT⟩
  · intro t ht
    rcases hmm t ht with ht' | rfl
    · have := hInv.recLt t ht'
      simp only
      omega
    · rw [htaskdef]
      simp only [Option.some_bind, Option.getD_some]
      omega
  · intro t ht T hT hrecT
    simp only [List.mem_cons] at hT
    rcases hmm t ht with ht' | rfl
    · rcases hT with rfl | hT
      · exfalso
        have := hInv.recLt t ht'
        rw [hrecT] at this
        simp only [Option.getD_some] at this
        omega
      · exact hInv.recOwn t ht' T hT hrecT
    · rcases hT with rfl | hT
      · rw [htaskdef]
      · exfalso
        rw [htaskdef] at hrecT
        simp only [Option.some_bind] at hrecT
        have hTh : T.handle = s.nextHandle := (Option.some.inj hrecT).symm
        have := hInv.handleLt T hT
        omega
  · intro T hT t ht hidT
    simp only [List.mem_cons] at hT
    rcases hT with rfl | hT
    · rcases hmm t ht with ht' | rfl
      · exfalso
        have := hInv.idLt t ht'
        simp only at hidT
        omega
      · rw [htaskdef]
    · rcases hmm t ht with ht' | rfl
      · exact hInv.timerName T hT t ht' hidT
      · exfalso
        obtain ⟨t3, ht3, hid3, _⟩ := hInv.owned T hT
        have := hInv.idLt t3 ht3
        rw [htaskdef] at hidT
        simp only at hidT
        rw [hid3, ← hidT] at this
        omega
  · intro e he T hT
    simp only [List.mem_cons] at hT
    rcases hT with rfl | hT
    · have := hInv.notifIdLt e he
      simp only
      omega
    · exact hInv.notifNoLive e he T hT
  · intro e he
    have := hInv.notifIdLt e he
    simp only
    omega
  · intro e he t ht hidT
    rcases hmm t ht with ht' | rfl
    · exact hInv.notifName e he t ht' hidT
    · exfalso
      have := hInv.notifIdLt e he
      rw [htaskdef] at hidT
      simp only at hidT
      omega
  · intro e he t ht hidT
    rcases hmm t ht with ht' | rfl
    · exact hInv.notifRec e he t ht' hidT
    · exfalso
      have := hInv.notifIdLt e he
      rw [htaskdef] at hidT
      simp only at hidT
      omega

/-- Adding a planning task (with any permission outcome) preserves the
invariant, provided the requested reminder records no timer handle — which
is what the only caller passes. -/
theorem inv_addPlanningTask {s : AppState} (hInv : Inv s) (name : String)
    (reminder : Option TaskReminder) (perm : NotificationPermissionResult)
    (hT : ∀ r, reminder = some r → r.timeoutId = none) :
    Inv (handleAddPlanningTask s name reminder perm) := by
  rcases hrem : reminder with _ | r
  · simp only [handleAddPlanningTask]
    exact inv_append_plain hInv _ rfl rfl
  · have hTid : r.timeoutId = none := hT r hrem
    by_cases hen : r.enabled
    · by_cases hg : perm.granted
      · rcases hd : computeDelayMs r.option r.customMinutes with _ | d
        · simp only [handleAddPlanningTask, hen, if_true, hg, scheduleReminderDelay, hd]
          exact inv_append_plain hInv _ rfl (by simp [hTid])
        · have hnh : s.nextHandle ≠ 0 := by
            have := hInv.nextHandlePos
            omega
          simp only [handleAddPlanningTask, hen, if_true, hg, scheduleReminderDelay, hd,
            jsSetTimeout, ne_eq, hnh, not_false_eq_true, if_true]
          exact inv_append_armed hInv name r ((s.now : Int) + d)
      · simp only [handleAddPlanningTask, hen, if_true, hg, Bool.false_eq_true, if_false]
        exact inv_append_plain hInv _ rfl (by simp [hTid])
    · simp only [handleAddPlanningTask, hen]
      exact inv_append_plain hInv _ rfl (by simp [hTid])

/-- Completing a task from a delivered notification (and closing it)
preserves the invariant. -/
theorem inv_complete {s : AppState} (hInv : Inv s) (taskId : Nat) (taskName : String) :
    Inv (closeNotification (handleTaskComplete s taskId taskName) taskId) := by
  rw [handleTaskComplete]
  by_cases hfind : (s.planningTasks.find? fun t => decide (t.id = taskId)).isSome
  · rw [if_pos hfind]
    exact inv_close (inv_addTask (inv_deleteTask hInv taskId) taskName (some 10)) taskId
  · rw [if_neg hfind]
    exact inv_close hInv taskId

/-- Every step of the event loop preserves the invariant. -/
theorem inv_step {s s' : AppState} (hInv : Inv s) (h : Step s s') : Inv s' := by
  cases h with
  | addTask name points => exact inv_addTask hInv name points
  | addPlanningTask name reminder perm hT => exact inv_addPlanningTask hInv name reminder perm hT
  | restore task htask => exact inv_restore hInv task htask
  | updatePriority taskId p => exact inv_updatePriority hInv taskId p
  | deleteTask taskId => exact inv_deleteTask hInv taskId
  | fire timer hT hfa => exact inv_fire hInv timer hT
  | complete taskId taskName hmem => exact inv_complete hInv taskId taskName
  | snooze taskId taskName hmem => exact inv_snooze_comp hInv hmem
  | tick d => exact inv_tick hInv d
  | reload => exact inv_reload hInv

/-- The invariant holds in every reachable state. -/
theorem reachable_inv {s : AppState} (h : Reachable s) : Inv s := by
  induction h with
  | refl => exact inv_init
  | tail _ hstep ih => exact inv_step ih hstep
/-- Shape of a deletion: the planning collection is filtered, and the live
timers either stay or lose exactly one handle that the deleted task
recorded. -/
theorem delete_shape (s : AppState) (taskId : Nat) :
    handleDeletePlanningTask s taskId =
      { s with planningTasks := s.planningTasks.filter fun t => decide (t.id ≠ taskId) } ∨
    ∃ h, handleDeletePlanningTask s taskId =
      { s with live := s.live.filter fun T => decide (T.handle ≠ h),
               planningTasks := s.planningTasks.filter fun t => decide (t.id ≠ taskId) } ∧
      ∃ t ∈ s.planningTasks, t.id = taskId ∧
        t.reminder.bind TaskReminder.timeoutId = some h := by
  rcases hfind : s.planningTasks.find? (fun t => decide (t.id = taskId)) with _ | t
  · left
    simp only [handleDeletePlanningTask, hfind]
  · have ht : t ∈ s.planningTasks := List.mem_of_find?_eq_some hfind
    have htid : t.id = taskId := by simpa using List.find?_some hfind
    rcases hrec : t.reminder.bind TaskReminder.timeoutId with _ | h
    · left
      simp only [handleDeletePlanningTask, hfind, hrec]
    · by_cases h0 : h ≠ 0
      · right
        refine ⟨h, ?_, t, ht, htid, hrec⟩
        simp only [handleDeletePlanningTask, hfind, hrec, if_pos h0, jsClearTimeout]
      · left
        simp only [handleDeletePlanningTask, hfind, hrec, if_neg h0]

/-- A deletion never touches the completed tasks, the notifications or the
counters, and filters the planning collection. -/
theorem delete_fields (s : AppState) (taskId : Nat) :
    (handleDeletePlanningTask s taskId).planningTasks =
      (s.planningTasks.filter fun t => decide (t.id ≠ taskId)) ∧
    (handleDeletePlanningTask s taskId).tasks = s.tasks ∧
    (handleDeletePlanningTask s taskId).notified = s.notified ∧
    (handleDeletePlanningTask s taskId).nextHandle = s.nextHandle ∧
    (handleDeletePlanningTask s taskId).nextId = s.nextId ∧
    (handleDeletePlanningTask s taskId).now = s.now ∧
    ∀ T ∈ (handleDeletePlanningTask s taskId).live, T ∈ s.live := by
  rcases delete_shape s taskId with hsh | ⟨h, hsh, _⟩ <;> rw [hsh]
  · exact ⟨rfl, rfl, rfl, rfl, rfl, rfl, fun T hT => hT⟩
  · refine ⟨rfl, rfl, rfl, rfl, rfl, rfl, ?_⟩
    intro T hT
    simp only [List.mem_filter] at hT
    exact hT.1

/-- Shape of adding a planning task: one task with the fresh id is appended,
and at most one timer (for the fresh id) is armed. -/
theorem addPlanningTask_shape (s : AppState) (name : String)
    (reminder : Option TaskReminder) (perm : NotificationPermissionResult) :
    ∃ rem' : Option TaskReminder,
      (handleAddPlanningTask s name reminder perm).planningTasks =
        s.planningTasks ++ [⟨s.nextId, name, Priority.low, s.now, rem'⟩] ∧
      (handleAddPlanningTask s name reminder perm).tasks = s.tasks ∧
      (handleAddPlanningTask s name reminder perm).nextId = s.nextId + 1 ∧
      (handleAddPlanningTask s name reminder perm).notified = s.notified ∧
      ((handleAddPlanningTask s name reminder perm).live = s.live ∨
        ∃ fa, (handleAddPlanningTask s name reminder perm).live =
          ⟨s.nextHandle, s.nextId, name, fa⟩ :: s.live) := by
  rcases hrem : reminder with _ | r
  · refine ⟨none, ?_, ?_, ?_, ?_, Or.inl ?_⟩ <;> rfl
  · by_cases hen : r.enabled
    · by_cases hg : perm.granted
      · rcases hd : computeDelayMs r.option r.customMinutes with _ | d
        · refine ⟨some r, ?_, ?_, ?_, ?_, Or.inl ?_⟩ <;>
            simp [handleAddPlanningTask, hen, hg, scheduleReminderDelay, hd]
        · by_cases h0 : s.nextHandle ≠ 0
          · refine ⟨some { r with timeoutId := some s.nextHandle }, ?_, ?_, ?_, ?_,
              Or.inr ⟨(s.now : Int) + d, ?_⟩⟩ <;>
              simp [handleAddPlanningTask, hen, hg, scheduleReminderDelay, hd,
                jsSetTimeout, h0]
          · refine ⟨some r, ?_, ?_, ?_, ?_, Or.inr ⟨(s.now : Int) + d, ?_⟩⟩ <;>
              simp [handleAddPlanningTask, hen, hg, scheduleReminderDelay, hd,
                jsSetTimeout, h0]
      · refine ⟨some { r with enabled := false }, ?_, ?_, ?_, ?_, Or.inl ?_⟩ <;>
          simp [handleAddPlanningTask, hen, hg]
    · refine ⟨some r, ?_, ?_, ?_, ?_, Or.inl ?_⟩ <;>
        simp [handleAddPlanningTask, hen]

/-- Preserving a dead id across one state change. -/
theorem deadId_pres {id : Nat} {s s' : AppState} (hdead : DeadId id s)
    (hplan : ∀ t' ∈ s'.planningTasks,
      (∃ t ∈ s.planningTasks, t'.id = t.id) ∨ t'.id = s.nextId)
    (hlive : ∀ T ∈ s'.live, T ∈ s.live ∨
      (∃ t ∈ s.planningTasks, T.taskId = t.id) ∨ T.taskId = s.nextId)
    (hnext : s.nextId ≤ s'.nextId) : DeadId id s' := by
  obtain ⟨hdp, hdl, hdn⟩ := hdead
  refine ⟨?_, ?_, by omega⟩
  · intro t' ht'
    rcases hplan t' ht' with ⟨t, ht, heq⟩ | heq
    · rw [heq]; exact hdp t ht
    · rw [heq]; omega
  · intro T hT
    rcases hlive T hT with hT' | ⟨t, ht, heq⟩ | heq
    · exact hdl T hT'
    · rw [heq]; exact hdp t ht
    · rw [heq]; omega

/-- A dead id stays dead under every step of the event loop: no planning
task will ever carry it again and no timer will ever be armed for it. -/
theorem deadId_step {id : Nat} {s s' : AppState} (hdead : DeadId id s)
    (h : Step s s') : DeadId id s' := by
  cases h with
  | addTask name points =>
    refine deadId_pres hdead (fun t' ht' => Or.inl ⟨t', ht', rfl⟩)
      (fun T hT => Or.inl hT) ?_
    simp only [handleAddTask]
    omega
  | addPlanningTask name reminder perm hT =>
    obtain ⟨rem', hplan, _, hnext, _, hlive⟩ := addPlanningTask_shape s name reminder perm
    refine deadId_pres hdead ?_ ?_ (by omega)
    · intro t' ht'
      rw [hplan, List.mem_append] at ht'
      rcases ht' with ht' | ht'
      · exact Or.inl ⟨t', ht', rfl⟩
      · right
        simp only [List.mem_singleton] at ht'
        rw [ht']
    · intro T hT2
      rcases hlive with hlive | ⟨fa, hlive⟩
      · rw [hlive] at hT2
        exact Or.inl hT2
      · rw [hlive] at hT2
        simp only [List.mem_cons] at hT2
        rcases hT2 with rfl | hT2
        · exact Or.inr (Or.inr rfl)
        · exact Or.inl hT2
  | restore task htask =>
    rcases hres : restoreDelay s.now task.createdAt task.reminder with _ | remaining
    · refine deadId_pres hdead ?_ ?_ ?_ <;> simp only [applyRestore, hres]
      · exact fun t' ht' => Or.inl ⟨t', ht', rfl⟩
      · exact fun T hT => Or.inl hT
      · exact le_refl _
    · refine deadId_pres hdead ?_ ?_ ?_ <;> simp only [applyRestore, hres, jsSetTimeout]
      · intro t' ht'
        rw [List.mem_map] at ht'
        obtain ⟨t, ht, rfl⟩ := ht'
        left
        refine ⟨t, ht, ?_⟩
        by_cases hc : t.id = task.id ∧ t.reminder.isSome <;> simp [hc]
      · intro T hT
        rw [List.mem_cons] at hT
        rcases hT with rfl | hT
        · exact Or.inr (Or.inl ⟨task, htask, rfl⟩)
        · exact Or.inl hT
      · exact le_refl _
  | updatePriority taskId p =>
    refine deadId_pres hdead ?_ (fun T hT => Or.inl hT) (le_refl _)
    intro t' ht'
    simp only [handleUpdatePlanningTaskPriority, List.mem_map] at ht'
    obtain ⟨t, ht, rfl⟩ := ht'
    left
    refine ⟨t, ht, ?_⟩
    by_cases hc : t.id = taskId <;> simp [hc]
  | deleteTask taskId =>
    obtain ⟨hplan, _, _, _, hnext, _, hlive⟩ := delete_fields s taskId
    refine deadId_pres hdead ?_ (fun T hT => Or.inl (hlive T hT)) (by omega)
    intro t' ht'
    rw [hplan, List.mem_filter] at ht'
    exact Or.inl ⟨t', ht'.1, rfl⟩
  | fire timer hT hfa =>
    refine deadId_pres hdead (fun t' ht' => Or.inl ⟨t', ht', rfl⟩) ?_ (le_refl _)
    intro T hT2
    simp only [fireTimer, List.mem_filter] at hT2
    exact Or.inl hT2.1
  | complete taskId taskName hmem =>
    obtain ⟨hplan, _, _, _, hnext, _, hlive⟩ := delete_fields s taskId
    refine deadId_pres hdead ?_ ?_ ?_
    · intro t' ht'
      simp only [closeNotification, handleTaskComplete] at ht'
      by_cases hfind : (s.planningTasks.find? fun t => decide (t.id = taskId)).isSome
      · rw [if_pos hfind] at ht'
        simp only [handleAddTask] at ht'
        rw [hplan, List.mem_filter] at ht'
        exact Or.inl ⟨t', ht'.1, rfl⟩
      · rw [if_neg hfind] at ht'
        exact Or.inl ⟨t', ht', rfl⟩
    · intro T hT2
      simp only [closeNotification, handleTaskComplete] at hT2
      by_cases hfind : (s.planningTasks.find? fun t => decide (t.id = taskId)).isSome
      · rw [if_pos hfind] at hT2
        simp only [handleAddTask] at hT2
        exact Or.inl (hlive T hT2)
      · rw [if_neg hfind] at hT2
        exact Or.inl hT2
    · simp only [closeNotification, handleTaskComplete]
      by_cases hfind : (s.planningTasks.find? fun t => decide (t.id = taskId)).isSome
      · rw [if_pos hfind]
        simp only [handleAddTask]
        omega
      · rw [if_neg hfind]
  | snooze taskId taskName hmem =>
    rcases hfind : s.planningTasks.find? (fun t => decide (t.id = taskId)) with _ | task
    · refine deadId_pres hdead ?_ ?_ ?_ <;>
        simp only [closeNotification, handleSnooze, hfind]
      · exact fun t' ht' => Or.inl ⟨t', ht', rfl⟩
      · exact fun T hT => Or.inl hT
      · exact le_refl _
    · rcases hr : task.reminder with _ | r
      · refine deadId_pres hdead ?_ ?_ ?_ <;>
          simp only [closeNotification, handleSnooze, hfind, hr]
        · exact fun t' ht' => Or.inl ⟨t', ht', rfl⟩
        · exact fun T hT => Or.inl hT
        · exact le_refl _
      · refine deadId_pres hdead ?_ ?_ ?_ <;>
          simp only [closeNotification, handleSnooze, hfind, hr, jsSetTimeout]
        · intro t' ht'
          rw [List.mem_map] at ht'
          obtain ⟨t, ht, rfl⟩ := ht'
          left
          refine ⟨t, ht, ?_⟩
          by_cases hc : t.id = taskId ∧ t.reminder.isSome <;> simp [hc]
        · intro T hT
          rw [List.mem_cons] at hT
          rcases hT with rfl | hT
          · exact Or.inr (Or.inl ⟨task, List.mem_of_find?_eq_some hfind, rfl⟩)
          · exact Or.inl hT
        · exact le_refl _
  | tick d =>
    refine deadId_pres hdead ?_ ?_ ?_
    · exact fun t' ht' => Or.inl ⟨t', ht', rfl⟩
    · exact fun T hT => Or.inl hT
    · exact le_refl _
  | reload =>
    refine deadId_pres hdead ?_ ?_ ?_
    · exact fun t' ht' => Or.inl ⟨t', ht', rfl⟩
    · intro T hT
      simp at hT
    · exact le_refl _

/-- A dead id stays dead along every run of the event loop. -/
theorem deadId_run {id : Nat} {s s' : AppState} (hdead : DeadId id s)
    (h : Relation.ReflTransGen Step s s') : DeadId id s' := by
  induction h with
  | refl => exact hdead
  | tail _ hstep ih => exact deadId_step ih hstep
/-- Claim C8: in every reachable state of the event loop, each planning task
owns at most one live timer. -/
theorem at_most_one_live_timer (s : AppState) (h : Reachable s) (taskId : Nat) :
    (s.live.filter fun T => decide (T.taskId = taskId)).length ≤ 1 := by
  have hInv := reachable_inv h
  rcases hl : s.live.filter (fun T => decide (T.taskId = taskId)) with _ | ⟨T1, rest⟩
  · rw [hl]
    simp
  · rcases hrest : rest with _ | ⟨T2, rest2⟩
    · rw [hl, hrest]
      simp
    · exfalso
      subst hrest
      have hmem1 : T1 ∈ s.live.filter (fun T => decide (T.taskId = taskId)) := by
        rw [hl]; exact List.mem_cons_self _ _
      have hmem2 : T2 ∈ s.live.filter (fun T => decide (T.taskId = taskId)) := by
        rw [hl]; exact List.mem_cons_of_mem _ (List.mem_cons_self _ _)
      have h1 : T1 ∈ s.live ∧ T1.taskId = taskId := by
        rw [List.mem_filter] at hmem1
        exact ⟨hmem1.1, by simpa using hmem1.2⟩
      have h2 : T2 ∈ s.live ∧ T2.taskId = taskId := by
        rw [List.mem_filter] at hmem2
        exact ⟨hmem2.1, by simpa using hmem2.2⟩
      have hnd : ((s.live.filter fun T => decide (T.taskId = taskId)).map
          LiveTimer.handle).Nodup :=
        (List.Sublist.map LiveTimer.handle (List.filter_sublist _)).nodup hInv.liveNodup
      rw [hl] at hnd
      simp only [List.map_cons, List.nodup_cons, List.mem_cons, List.mem_map] at hnd
      have hne : ¬ T1.handle = T2.handle := fun hcon => hnd.1 (Or.inl hcon)
      have heq := hInv.timer_unique h1.1 h2.1 (by rw [h1.2, h2.2])
      rw [heq] at hne
      exact hne rfl

/-- Witness for the C8 theorem at the initial state (reachable by the empty
run). -/
theorem at_most_one_live_timer_witness :
    (initState.live.filter fun T => decide (T.taskId = 0)).length ≤ 1 :=
  at_most_one_live_timer initState Relation.ReflTransGen.refl 0

/-- Claim C6: under the event-loop invariant, deleting a planning task first
cancels the live timer its reminder records (if any) and then removes
exactly that task from the collection; afterwards no live timer for that
task id remains, timers of other tasks survive, and along any continuation
of the run no timer for that id is ever live again, so no reminder
notification for it can ever fire; deleting an absent id leaves the
collection unchanged. -/
theorem handleDeletePlanningTask_spec (s : AppState) (hInv : Inv s) (taskId : Nat)
    (hid : taskId < s.nextId) :
    (handleDeletePlanningTask s taskId).planningTasks =
      (s.planningTasks.filter fun t => decide (t.id ≠ taskId)) ∧
    (∀ T ∈ (handleDeletePlanningTask s taskId).live, ¬ T.taskId = taskId) ∧
    (∀ T ∈ s.live, ¬ T.taskId = taskId → T ∈ (handleDeletePlanningTask s taskId).live) ∧
    ((∀ t ∈ s.planningTasks, ¬ t.id = taskId) →
      (handleDeletePlanningTask s taskId).planningTasks = s.planningTasks) ∧
    (∀ s'' : AppState,
      Relation.ReflTransGen Step (handleDeletePlanningTask s taskId) s'' →
      ∀ T ∈ s''.live, ¬ T.taskId = taskId) := by
  have hInv' : Inv (handleDeletePlanningTask s taskId) := inv_deleteTask hInv taskId
  obtain ⟨hplan, _, _, _, hnext, _, _⟩ := delete_fields s taskId
  have hnolive : ∀ T ∈ (handleDeletePlanningTask s taskId).live, ¬ T.taskId = taskId := by
    intro T hT hTid
    obtain ⟨t, ht, htid, _⟩ := hInv'.owned T hT
    rw [hplan, List.mem_filter] at ht
    have : ¬ t.id = taskId := by simpa using ht.2
    exact this (by rw [htid, hTid])
  refine ⟨hplan, hnolive, ?_, ?_, ?_⟩
  · intro T hT hTid
    rcases delete_shape s taskId with hsh | ⟨h, hsh, t, ht, htid, hrec⟩ <;> rw [hsh]
    · exact hT
    · simp only [List.mem_filter, decide_eq_true_eq]
      refine ⟨hT, ?_⟩
      intro hcon
      exact hTid (by rw [hInv.recOwn t ht T hT (by rw [hrec, hcon]), htid])
  · intro habsent
    rw [hplan]
    rw [List.filter_eq_self]
    intro t ht
    simpa using habsent t ht
  · intro s'' hrun
    have hdead : DeadId taskId (handleDeletePlanningTask s taskId) := by
      refine ⟨?_, hnolive, by omega⟩
      intro t ht
      rw [hplan, List.mem_filter] at ht
      simpa using ht.2
    exact fun T hT => (deadId_run hdead hrun).2.1 T hT

/-- Witness for the C6 theorem: a concrete invariant-satisfying state with
one planning task owning one live timer; deleting the task cancels the
timer and removes the task. -/
theorem handleDeletePlanningTask_spec_witness :
    (∀ T ∈ (handleDeletePlanningTask
        ⟨[], [⟨0, "write", Priority.low, 0, some ⟨true, "1hr", none, some 3⟩⟩],
         [⟨3, 0, "write", 3600000⟩], [], 4, 1, 0⟩ 0).live, ¬ T.taskId = 0) ∧
    (handleDeletePlanningTask
        ⟨[], [⟨0, "write", Priority.low, 0, some ⟨true, "1hr", none, some 3⟩⟩],
         [⟨3, 0, "write", 3600000⟩], [], 4, 1, 0⟩ 0).planningTasks = [] := by
  constructor
  · exact (handleDeletePlanningTask_spec
      ⟨[], [⟨0, "write", Priority.low, 0, some ⟨true, "1hr", none, some 3⟩⟩],
       [⟨3, 0, "write", 3600000⟩], [], 4, 1, 0⟩
      ⟨by decide, by decide, by decide, by decide, by decide, by decide,
       by decide, by decide, by decide, by decide, by decide, by decide,
       by decide, by decide, by decide⟩
      0 (by decide)).2.1
  · have h := (handleDeletePlanningTask_spec
      ⟨[], [⟨0, "write", Priority.low, 0, some ⟨true, "1hr", none, some 3⟩⟩],
       [⟨3, 0, "write", 3600000⟩], [], 4, 1, 0⟩
      ⟨by decide, by decide, by decide, by decide, by decide, by decide,
       by decide, by decide, by decide, by decide, by decide, by decide,
       by decide, by decide, by decide⟩
      0 (by decide)).1
    rw [h]
    decide

/-- Claim C7: adding a planning task whose requested reminder is enabled,
when notification permission is not granted, still appends the task — with
priority low, createdAt now, and the stored reminder's enabled flag forced
to false — and arms no timer; the completed-task collection is untouched
and the operation never fails. -/
theorem handleAddPlanningTask_denied (s : AppState) (name : String) (r : TaskReminder)
    (perm : NotificationPermissionResult)
    (hEn : r.enabled = true) (hNg : perm.granted = false) :
    (handleAddPlanningTask s name (some r) perm).planningTasks =
      s.planningTasks ++
        [⟨s.nextId, name, Priority.low, s.now, some { r with enabled := false }⟩] ∧
    (handleAddPlanningTask s name (some r) perm).live = s.live ∧
    (handleAddPlanningTask s name (some r) perm).tasks = s.tasks := by
  refine ⟨?_, ?_, ?_⟩ <;> simp [handleAddPlanningTask, hEn, hNg]

/-- Witness for the C7 theorem: a concrete denied-permission insertion. -/
theorem handleAddPlanningTask_denied_witness :
    (handleAddPlanningTask initState "plan trip" (some ⟨true, "2hr", none, none⟩)
      ⟨false, false⟩).planningTasks =
      [⟨0, "plan trip", Priority.low, 0, some ⟨false, "2hr", none, none⟩⟩] ∧
    (handleAddPlanningTask initState "plan trip" (some ⟨true, "2hr", none, none⟩)
      ⟨false, false⟩).live = [] := by
  have h := handleAddPlanningTask_denied initState "plan trip" ⟨true, "2hr", none, none⟩
    ⟨false, false⟩ (by decide) (by decide)
  exact ⟨h.1, h.2.1⟩

/-- Claim C10: the mark-complete notification action, carrying a task id
present in the planning collection, deletes that planning task and appends
a completed task with the carried name and a fixed 10 points (whatever the
difficulty-based point values elsewhere); with an absent id both
collections are left unchanged; and under the invariant the carried name is
the task's own name. -/
theorem handleTaskComplete_spec (s : AppState) (taskId : Nat) (taskName : String) :
    ((∃ t ∈ s.planningTasks, t.id = taskId) →
      (handleTaskComplete s taskId taskName).planningTasks =
        (s.planningTasks.filter fun t => decide (t.id ≠ taskId)) ∧
      (handleTaskComplete s taskId taskName).tasks =
        s.tasks ++ [⟨s.nextId, taskName, s.now, some 10⟩]) ∧
    ((∀ t ∈ s.planningTasks, ¬ t.id = taskId) →
      handleTaskComplete s taskId taskName = s) ∧
    (Inv s → (taskId, taskName) ∈ s.notified →
      ∀ t ∈ s.planningTasks, t.id = taskId → taskName = t.name) := by
  obtain ⟨hplan, htasks, _, _, hnext, hnow, _⟩ := delete_fields s taskId
  refine ⟨?_, ?_, ?_⟩
  · intro ⟨t, ht, htid⟩
    have hfind : (s.planningTasks.find? fun t => decide (t.id = taskId)).isSome := by
      rcases hf : s.planningTasks.find? (fun t => decide (t.id = taskId)) with _ | t'
      · exfalso
        have := List.find?_eq_none.mp hf t ht
        simp only [decide_eq_true_eq] at this
        exact this htid
      · rw [hf]
        rfl
    rw [handleTaskComplete, if_pos hfind]
    simp only [handleAddTask]
    refine ⟨hplan, ?_⟩
    rw [htasks, hnext, hnow]
  · intro habsent
    have hfind : (s.planningTasks.find? fun t => decide (t.id = taskId)) = none := by
      rw [List.find?_eq_none]
      intro t ht
      simpa using habsent t ht
    rw [handleTaskComplete, hfind]
    rfl
  · intro hInv hmem t ht htid
    exact hInv.notifName (taskId, taskName) hmem t ht htid

/-- Witness for the C10 theorem: a concrete invariant-satisfying state in
which the task's reminder fired (its notification is pending); completing
it moves it to the completed list with 10 points. -/
theorem handleTaskComplete_spec_witness :
    (handleTaskComplete
      ⟨[], [⟨0, "write", Priority.low, 0, some ⟨true, "1hr", none, some 3⟩⟩],
       [], [(0, "write")], 4, 1, 9⟩ 0 "write").tasks =
      [] ++ [⟨1, "write", 9, some 10⟩] ∧
    "write" = (⟨0, "write", Priority.low, 0,
      some ⟨true, "1hr", none, some 3⟩⟩ : PlanningTask).name := by
  constructor
  · exact ((handleTaskComplete_spec
      ⟨[], [⟨0, "write", Priority.low, 0, some ⟨true, "1hr", none, some 3⟩⟩],
       [], [(0, "write")], 4, 1, 9⟩ 0 "write").1
      ⟨⟨0, "write", Priority.low, 0, some ⟨true, "1hr", none, some 3⟩⟩, by decide, rfl⟩).2
  · exact (handleTaskComplete_spec
      ⟨[], [⟨0, "write", Priority.low, 0, some ⟨true, "1hr", none, some 3⟩⟩],
       [], [(0, "write")], 4, 1, 9⟩ 0 "write").2.2
      ⟨by decide, by decide, by decide, by decide, by decide, by decide,
       by decide, by decide, by decide, by decide, by decide, by decide,
       by decide, by decide, by decide⟩
      (by decide) _ (by decide) (by decide)
set_option maxHeartbeats 12000000 in
/-- Hinnant's closed year-of-era formula is correct on each year-of-era:
within the day range of year `y`, it returns `y`.  (400 cases, one per
year-of-era.) -/
theorem civilYoe_eq (y doe : Nat) (hy : y < 400)
    (h1 : yearStartDoe y ≤ doe) (h2 : doe < yearStartDoe (y + 1)) :
    civilYoe doe = y := by
  simp only [civilYoe, yearStartDoe] at *
  interval_cases y <;> omega

/-- Every day-of-era below the start of year `n` lies in the day range of
some earlier year-of-era. -/
theorem yearStart_coverage : ∀ n, n ≤ 400 → ∀ doe, doe < yearStartDoe n →
    ∃ y < n, yearStartDoe y ≤ doe ∧ doe < yearStartDoe (y + 1) := by
  intro n
  induction n with
  | zero =>
    intro _ doe h
    simp [yearStartDoe] at h
  | succ k ih =>
    intro hk doe h
    rcases Nat.lt_or_ge doe (yearStartDoe k) with hlt | hge
    · obtain ⟨y, hy, h1, h2⟩ := ih (by omega) doe hlt
      exact ⟨y, by omega, h1, h2⟩
    · exact ⟨k, by omega, hge, h⟩

set_option maxRecDepth 4000 in
/-- The month/day split of a day-of-year (counted from March 1) recomposes
to the same day-of-year, yields a month in 1..12 and a day in 1..31, and
lands in January or February exactly for the last 60 days.  (366 cases.) -/
theorem month_part : ∀ doy, doy ≤ 365 →
    ((153 * (if 2 < civilMonth doy then civilMonth doy - 3 else civilMonth doy + 9) + 2) / 5
        + civilDay doy - 1 = doy ∧
      1 ≤ civilMonth doy ∧ civilMonth doy ≤ 12 ∧
      1 ≤ civilDay doy ∧ civilDay doy ≤ 31 ∧
      (civilMonth doy ≤ 2 ↔ 306 ≤ doy)) := by decide

/-- The last day of an era belongs to its last year. -/
theorem civilYoe_last : civilYoe 146096 = 399 := by decide

set_option maxHeartbeats 8000000 in
/-- Arithmetic core of the calendar round trip, over opaque components. -/
theorem civil_core (z era doe yoe doy M D : Nat)
    (h1 : era * 146097 + doe = z + 719468)
    (hz : z ≤ 2932896)
    (hdoele : doe ≤ 146096)
    (hdoyeq : doe = (365 * yoe + yoe / 4 - yoe / 100) + doy)
    (hyoele : yoe ≤ 399) (hdoyle : doy ≤ 365)
    (hrecomp : (153 * (if 2 < M then M - 3 else M + 9) + 2) / 5 + D - 1 = doy)
    (hmiff : M ≤ 2 ↔ 306 ≤ doy) :
    daysFromCivil (if M ≤ 2 then yoe + era * 400 + 1 else yoe + era * 400) M D = z ∧
    1970 ≤ (if M ≤ 2 then yoe + era * 400 + 1 else yoe + era * 400) ∧
    (if M ≤ 2 then yoe + era * 400 + 1 else yoe + era * 400) ≤ 9999 := by
  have hera1 : 4 ≤ era := by omega
  have hera2 : era ≤ 24 := by omega
  by_cases hc : M ≤ 2
  · have h306 : 306 ≤ doy := hmiff.mp hc
    rw [if_pos hc]
    have hm3 : ¬ 2 < M := by omega
    rw [if_neg hm3] at hrecomp
    refine ⟨?_, ?_, ?_⟩
    · simp only [daysFromCivil]
      rw [if_pos hc, if_neg hm3, hrecomp]
      have hq : (yoe + era * 400 + 1 - 1) / 400 = era := by omega
      have hr : (yoe + era * 400 + 1 - 1) % 400 = yoe := by omega
      rw [hq, hr]
      omega
    · interval_cases era <;> omega
    · interval_cases era <;> omega
  · have h305 : doy ≤ 305 := by
      by_contra hcon
      exact hc (hmiff.mpr (by omega))
    rw [if_neg hc]
    have hm3 : 2 < M := by omega
    rw [if_pos hm3] at hrecomp
    refine ⟨?_, ?_, ?_⟩
    · simp only [daysFromCivil]
      rw [if_neg hc, if_pos hm3, hrecomp]
      have hq : (yoe + era * 400) / 400 = era := by omega
      have hr : (yoe + era * 400) % 400 = yoe := by omega
      rw [hq, hr]
      omega
    · interval_cases era <;> omega
    · interval_cases era <;> omega

/-- Converting a day number (1970-01-01 to 9999-12-31) to a Gregorian date
and back is the identity, and the date is in the expected ranges. -/
theorem civil_roundtrip (z : Nat) (hz : z ≤ 2932896) :
    daysFromCivil (civilFromDays z).1 (civilFromDays z).2.1 (civilFromDays z).2.2 = z ∧
    1970 ≤ (civilFromDays z).1 ∧ (civilFromDays z).1 ≤ 9999 ∧
    1 ≤ (civilFromDays z).2.1 ∧ (civilFromDays z).2.1 ≤ 12 ∧
    1 ≤ (civilFromDays z).2.2 ∧ (civilFromDays z).2.2 ≤ 31 := by
  have hciv : civilFromDays z =
      (if civilMonth ((z + 719468) % 146097 -
            yearStartDoe (civilYoe ((z + 719468) % 146097))) ≤ 2
       then civilYoe ((z + 719468) % 146097) + (z + 719468) / 146097 * 400 + 1
       else civilYoe ((z + 719468) % 146097) + (z + 719468) / 146097 * 400,
       civilMonth ((z + 719468) % 146097 -
         yearStartDoe (civilYoe ((z + 719468) % 146097))),
       civilDay ((z + 719468) % 146097 -
         yearStartDoe (civilYoe ((z + 719468) % 146097)))) := rfl
  have h1 : (z + 719468) / 146097 * 146097 + (z + 719468) % 146097 = z + 719468 := by
    omega
  have hdoele : (z + 719468) % 146097 ≤ 146096 := by omega
  have hyoe_char : yearStartDoe (civilYoe ((z + 719468) % 146097)) ≤ (z + 719468) % 146097 ∧
      (z + 719468) % 146097 - yearStartDoe (civilYoe ((z + 719468) % 146097)) ≤ 365 ∧
      civilYoe ((z + 719468) % 146097) ≤ 399 := by
    rcases Nat.lt_or_ge ((z + 719468) % 146097) 146096 with hlt | hge
    · have hcov : (z + 719468) % 146097 < yearStartDoe 400 := by
        have : yearStartDoe 400 = 146096 := by decide
        omega
      obtain ⟨y, hy400, hyl, hyr⟩ := yearStart_coverage 400 (le_refl _) _ hcov
      have heq := civilYoe_eq y _ hy400 hyl hyr
      rw [heq]
      have hstep : yearStartDoe (y + 1) ≤ yearStartDoe y + 366 := by
        simp only [yearStartDoe]
        omega
      exact ⟨hyl, by omega, by omega⟩
    · have hdoe96 : (z + 719468) % 146097 = 146096 := by omega
      rw [hdoe96, civilYoe_last]
      refine ⟨by decide, by decide, by decide⟩
  obtain ⟨hSle, hdoyle, hyoele⟩ := hyoe_char
  have hdoyeq : (z + 719468) % 146097 =
      (365 * civilYoe ((z + 719468) % 146097) + civilYoe ((z + 719468) % 146097) / 4 -
        civilYoe ((z + 719468) % 146097) / 100) +
      ((z + 719468) % 146097 - yearStartDoe (civilYoe ((z + 719468) % 146097))) := by
    simp only [yearStartDoe] at hSle ⊢
    omega
  obtain ⟨hrecomp, hm1, hm12, hd1, hd31, hmiff⟩ :=
    month_part ((z + 719468) % 146097 - yearStartDoe (civilYoe ((z + 719468) % 146097)))
      hdoyle
  have hcore := civil_core z ((z + 719468) / 146097) ((z + 719468) % 146097)
    (civilYoe ((z + 719468) % 146097))
    ((z + 719468) % 146097 - yearStartDoe (civilYoe ((z + 719468) % 146097)))
    (civilMonth ((z + 719468) % 146097 - yearStartDoe (civilYoe ((z + 719468) % 146097))))
    (civilDay ((z + 719468) % 146097 - yearStartDoe (civilYoe ((z + 719468) % 146097))))
    h1 hz hdoele hdoyeq hyoele hdoyle hrecomp hmiff
  rw [hciv]
  by_cases hc : civilMonth ((z + 719468) % 146097 -
      yearStartDoe (civilYoe ((z + 719468) % 146097))) ≤ 2
  · rw [if_pos hc]
    rw [if_pos hc] at hcore
    exact ⟨hcore.1, hcore.2.1, hcore.2.2, hm1, hm12, hd1, hd31⟩
  · rw [if_neg hc]
    rw [if_neg hc] at hcore
    exact ⟨hcore.1, hcore.2.1, hcore.2.2, hm1, hm12, hd1, hd31⟩
/-- The character list underlying a literal string. -/
theorem toList_mk (l : List Char) : (String.mk l).toList = l := rfl

/-- Digits print-and-parse to themselves. -/
theorem digitVal_digitChar (k : Nat) (h : k < 10) : digitVal (digitChar k) = some k := by
  interval_cases k <;> decide

/-- Two-digit round trip. -/
theorem parseFixed_pad2 (n : Nat) (h : n < 100) (rest : List Char) :
    parseFixed 0 2 (pad2 n ++ rest) = some (n, rest) := by
  have h1 : n / 10 < 10 := by omega
  have h2 : n % 10 < 10 := by omega
  simp only [pad2, List.cons_append, List.nil_append, parseFixed,
    digitVal_digitChar _ h1, digitVal_digitChar _ h2]
  have heq : (0 * 10 + n / 10) * 10 + n % 10 = n := by omega
  rw [heq]
  rfl

/-- Three-digit round trip. -/
theorem parseFixed_pad3 (n : Nat) (h : n < 1000) (rest : List Char) :
    parseFixed 0 3 (pad3 n ++ rest) = some (n, rest) := by
  have h1 : n / 100 < 10 := by omega
  have h2 : n / 10 % 10 < 10 := by omega
  have h3 : n % 10 < 10 := by omega
  simp only [pad3, List.cons_append, List.nil_append, parseFixed,
    digitVal_digitChar _ h1, digitVal_digitChar _ h2, digitVal_digitChar _ h3]
  have heq : ((0 * 10 + n / 100) * 10 + n / 10 % 10) * 10 + n % 10 = n := by omega
  rw [heq]
  rfl

/-- Four-digit round trip. -/
theorem parseFixed_pad4 (n : Nat) (h : n < 10000) (rest : List Char) :
    parseFixed 0 4 (pad4 n ++ rest) = some (n, rest) := by
  have h1 : n / 1000 < 10 := by omega
  have h2 : n / 100 % 10 < 10 := by omega
  have h3 : n / 10 % 10 < 10 := by omega
  have h4 : n % 10 < 10 := by omega
  simp only [pad4, List.cons_append, List.nil_append, parseFixed,
    digitVal_digitChar _ h1, digitVal_digitChar _ h2, digitVal_digitChar _ h3,
    digitVal_digitChar _ h4]
  have heq : (((0 * 10 + n / 1000) * 10 + n / 100 % 10) * 10 + n / 10 % 10) * 10 + n % 10
      = n := by omega
  rw [heq]
  rfl

/-- An expected character is consumed. -/
theorem expectChar_cons (c : Char) (rest : List Char) :
    expectChar c (c :: rest) = some rest := by
  simp [expectChar]

set_option maxHeartbeats 4000000 in
/-- Running the date parser over a well-formed ISO character sequence built
from bounded components. -/
theorem parseJsDateChars_iso (y mo d hh mi ss ms : Nat)
    (hy : y < 10000) (hmo : mo < 100) (hd : d < 100) (hhh : hh < 100)
    (hmi : mi < 100) (hss : ss < 100) (hms : ms < 1000) :
    parseJsDateChars (pad4 y ++ '-' :: (pad2 mo ++ '-' :: (pad2 d ++ 'T' ::
        (pad2 hh ++ ':' :: (pad2 mi ++ ':' :: (pad2 ss ++ '.' ::
        (pad3 ms ++ ['Z']))))))) =
      if 1970 ≤ y && 1 ≤ mo && mo ≤ 12 && 1 ≤ d && d ≤ 31 && hh < 24 &&
          mi < 60 && ss < 60
      then some (daysFromCivil y mo d * msPerDay +
        (hh * 3600000 + mi * 60000 + ss * 1000 + ms))
      else none := by
  rw [parseJsDateChars]
  rw [parseFixed_pad4 y hy _]
  dsimp only
  rw [expectChar_cons]
  dsimp only
  rw [parseFixed_pad2 mo hmo _]
  dsimp only
  rw [expectChar_cons]
  dsimp only
  rw [parseFixed_pad2 d hd _]
  dsimp only
  rw [expectChar_cons]
  dsimp only
  rw [parseFixed_pad2 hh hhh _]
  dsimp only
  rw [expectChar_cons]
  dsimp only
  rw [parseFixed_pad2 mi hmi _]
  dsimp only
  rw [expectChar_cons]
  dsimp only
  rw [parseFixed_pad2 ss hss _]
  dsimp only
  rw [expectChar_cons]
  dsimp only
  rw [parseFixed_pad3 ms hms _]
  dsimp only
  rw [expectChar_cons]

set_option maxHeartbeats 4000000 in
/-- The ISO-8601 serialization of any moment this app can store (year below
10000) parses back to exactly the same millisecond count: the string round
trip loses nothing. -/
theorem parseJsDate_toISOString (t : Nat) (h : t < isoLimit) :
    parseJsDate (toISOString t) = some t := by
  have hdays : t / msPerDay ≤ 2932896 := by
    simp only [isoLimit] at h
    simp only [msPerDay]
    omega
  obtain ⟨hrt, hy1, hy2, hm1, hm2, hd1, hd2⟩ := civil_roundtrip (t / msPerDay) hdays
  have hms : t % msPerDay < 86400000 := by
    simp only [msPerDay]
    omega
  rw [parseJsDate, toISOString]
  rw [toList_mk]
  simp only [List.append_assoc, List.cons_append, List.nil_append]
  rw [parseJsDateChars_iso _ _ _ _ _ _ _ (by omega) (by omega) (by omega) (by omega)
    (by omega) (by omega) (by omega)]
  have hcond : (decide (1970 ≤ (civilFromDays (t / msPerDay)).1) &&
      decide (1 ≤ (civilFromDays (t / msPerDay)).2.1) &&
      decide ((civilFromDays (t / msPerDay)).2.1 ≤ 12) &&
      decide (1 ≤ (civilFromDays (t / msPerDay)).2.2) &&
      decide ((civilFromDays (t / msPerDay)).2.2 ≤ 31) &&
      decide (t % msPerDay / 3600000 < 24) &&
      decide (t % msPerDay / 60000 % 60 < 60) &&
      decide (t % msPerDay / 1000 % 60 < 60)) = true := by
    simp only [Bool.and_eq_true, decide_eq_true_eq]
    exact ⟨⟨⟨⟨⟨⟨⟨hy1, hm1⟩, hm2⟩, hd1⟩, hd2⟩, by omega⟩, by omega⟩, by omega⟩
  rw [if_pos hcond, hrt]
  have heq : t / msPerDay * msPerDay +
      (t % msPerDay / 3600000 * 3600000 + t % msPerDay / 60000 % 60 * 60000 +
        t % msPerDay / 1000 % 60 * 1000 + t % msPerDay % 1000) = t := by
    simp only [msPerDay]
    omega
  rw [heq]

/-- Loading back the serialized form of one completed task: the date field is
parsed back to the same instant, every other field survives verbatim. -/
theorem loadRecord_stringifyTask (t : Task) (h : t.timestamp < isoLimit) :
    loadRecord "timestamp" (stringifyTask t) =
      some ⟨taskPlainFields t, some t.timestamp⟩ := by
  obtain ⟨i, n, ts, pts⟩ := t
  have hfix : loadRecord "timestamp" (stringifyTask ⟨i, n, ts, pts⟩) =
      some ⟨taskPlainFields ⟨i, n, ts, pts⟩, parseJsDate (toISOString ts)⟩ := by
    cases pts <;> rfl
  rw [hfix, parseJsDate_toISOString ts h]

/-- Loading back the serialized form of one planning task: the date field is
parsed back to the same instant, every other field survives verbatim. -/
theorem loadRecord_stringifyPlanningTask (p : PlanningTask)
    (h : p.createdAt < isoLimit) :
    loadRecord "createdAt" (stringifyPlanningTask p) =
      some ⟨planningPlainFields p, some p.createdAt⟩ := by
  obtain ⟨i, n, pr, ca, rem⟩ := p
  have hfix : loadRecord "createdAt" (stringifyPlanningTask ⟨i, n, pr, ca, rem⟩) =
      some ⟨planningPlainFields ⟨i, n, pr, ca, rem⟩, parseJsDate (toISOString ca)⟩ := by
    cases rem <;> rfl
  rw [hfix, parseJsDate_toISOString ca h]

/-- When every element of the stored array is accepted by the map callback,
the try-map is the plain map. -/
theorem tryMapRecords_map {α : Type} (dateKey : String) (l : List α)
    (f : α → Json) (g : α → LoadedRecord)
    (h : ∀ a ∈ l, loadRecord dateKey (f a) = some (g a)) :
    tryMapRecords dateKey (l.map f) = some (l.map g) := by
  induction l with
  | nil => rfl
  | cons a rest ih =>
    rw [List.map_cons, List.map_cons, tryMapRecords, h a (by simp),
      ih fun b hb => h b (by simp [hb])]

/-- A stored `null` element makes the map callback throw, whatever stands
before or after it. -/
theorem tryMapRecords_null (dateKey : String) (l1 l2 : List Json) :
    tryMapRecords dateKey (l1 ++ Json.null :: l2) = none := by
  induction l1 with
  | nil =>
    rw [List.nil_append, tryMapRecords]
    rfl
  | cons j rest ih =>
    rw [List.cons_append, tryMapRecords, ih]
    rcases loadRecord dateKey j with _ | r <;> rfl

/-- When every element of the stored array is accepted by the map callback,
the try-map succeeds and keeps the stored length. -/
theorem tryMapRecords_length (dateKey : String) (l : List Json)
    (h : ∀ j ∈ l, ∃ r, loadRecord dateKey j = some r) :
    ∃ out, tryMapRecords dateKey l = some out ∧ out.length = l.length := by
  induction l with
  | nil => exact ⟨[], rfl, rfl⟩
  | cons j rest ih =>
    obtain ⟨r, hr⟩ := h j (by simp)
    obtain ⟨out, ho, hl⟩ := ih fun b hb => h b (by simp [hb])
    refine ⟨r :: out, ?_, by simp [hl]⟩
    rw [tryMapRecords, hr, ho]

/-- Claim C9: saving a collection of completed tasks (or planning tasks) and
loading it back reproduces every plain field (id, name, points, priority,
reminder) verbatim and parses the serialized timestamp (resp. createdAt) back
to exactly the same millisecond instant, for every moment the app can
represent (year below 10000): the ISO-8601 round trip loses no precision. -/
theorem save_load_roundtrip (ts : List Task) (ps : List PlanningTask)
    (hts : ∀ t ∈ ts, t.timestamp < isoLimit)
    (hps : ∀ p ∈ ps, p.createdAt < isoLimit) :
    loadCollection "timestamp" (Except.ok (Json.arr (ts.map stringifyTask))) =
      ts.map (fun t => ⟨taskPlainFields t, some t.timestamp⟩) ∧
    loadCollection "createdAt"
        (Except.ok (Json.arr (ps.map stringifyPlanningTask))) =
      ps.map (fun p => ⟨planningPlainFields p, some p.createdAt⟩) := by
  constructor
  · show (tryMapRecords "timestamp" (ts.map stringifyTask)).getD [] = _
    rw [tryMapRecords_map "timestamp" ts stringifyTask
      (fun t => ⟨taskPlainFields t, some t.timestamp⟩)
      fun t ht => loadRecord_stringifyTask t (hts t ht)]
    rfl
  · show (tryMapRecords "createdAt" (ps.map stringifyPlanningTask)).getD [] = _
    rw [tryMapRecords_map "createdAt" ps stringifyPlanningTask
      (fun p => ⟨planningPlainFields p, some p.createdAt⟩)
      fun p hp => loadRecord_stringifyPlanningTask p (hps p hp)]
    rfl

/-- Witness for C9: a one-task and one-planning-task store round-trips
concretely; both hypotheses are discharged at the given timestamps. -/
theorem save_load_roundtrip_witness :
    (∀ t ∈ [(⟨1, "run", 86400123, some 10⟩ : Task)], t.timestamp < isoLimit) ∧
    (∀ p ∈ [(⟨2, "plan", Priority.low, 1000,
        some ⟨true, "custom", some 45, none⟩⟩ : PlanningTask)],
      p.createdAt < isoLimit) ∧
    (loadCollection "timestamp" (Except.ok (Json.arr
        ([(⟨1, "run", 86400123, some 10⟩ : Task)].map stringifyTask))) =
      [(⟨1, "run", 86400123, some 10⟩ : Task)].map
        (fun t => ⟨taskPlainFields t, some t.timestamp⟩) ∧
     loadCollection "createdAt" (Except.ok (Json.arr
        ([(⟨2, "plan", Priority.low, 1000,
            some ⟨true, "custom", some 45, none⟩⟩ : PlanningTask)].map
          stringifyPlanningTask))) =
      [(⟨2, "plan", Priority.low, 1000,
          some ⟨true, "custom", some 45, none⟩⟩ : PlanningTask)].map
        (fun p => ⟨planningPlainFields p, some p.createdAt⟩)) :=
  ⟨by decide, by decide, save_load_roundtrip _ _ (by decide) (by decide)⟩

/-- Claim C5 (counterexample): the claim says a stored collection holding a
record whose date field does not parse yields the EMPTY collection and never
a record with an invalid date; but the load effect's try block only throws on
JSON syntax errors and non-arrays — `new Date("garbage")` returns an Invalid
Date without throwing — so the record is KEPT, with an unparseable date. -/
theorem loadCollection_invalid_date_kept :
    loadCollection "timestamp" (Except.ok (Json.arr
        [Json.obj [("id", Json.str "1"), ("name", Json.str "x"),
          ("timestamp", Json.str "garbage")]])) =
      [⟨[("id", Json.str "1"), ("name", Json.str "x")], none⟩] := rfl

/-- Claim C5 (amended): the load catches malformed storage — a JSON syntax
error, a parsed value that is not an array, or an array holding a `null`
element (property access on `null` throws a `TypeError` inside the map
callback) — and yields the empty collection for that key, never crashing;
but an array of stored objects is never emptied by a bad record: every
element is kept (the loaded collection has the stored length), and a record
whose date text does not parse is retained with an Invalid Date rather than
dropped. -/
theorem loadCollection_spec :
    (∀ dateKey e, loadCollection dateKey (Except.error e) = []) ∧
    (∀ dateKey s, loadCollection dateKey (Except.ok (Json.str s)) = []) ∧
    (∀ dateKey fs, loadCollection dateKey (Except.ok (Json.obj fs)) = []) ∧
    (∀ dateKey l1 l2, loadCollection dateKey
      (Except.ok (Json.arr (l1 ++ Json.null :: l2))) = []) ∧
    (∀ (dateKey : String) (objs : List (List (String × Json))),
      (loadCollection dateKey
        (Except.ok (Json.arr (objs.map Json.obj)))).length = objs.length) ∧
    loadCollection "createdAt" (Except.ok (Json.arr
        [Json.obj [("id", Json.str "2"), ("name", Json.str "y"),
          ("priority", Json.str "low"),
          ("createdAt", Json.str "not a date")]])) =
      [⟨[("id", Json.str "2"), ("name", Json.str "y"),
         ("priority", Json.str "low")], none⟩] := by
  refine ⟨fun _ _ => rfl, fun _ _ => rfl, fun _ _ => rfl,
    fun dateKey l1 l2 => ?_, fun dateKey objs => ?_, rfl⟩
  · show (tryMapRecords dateKey (l1 ++ Json.null :: l2)).getD [] = []
    rw [tryMapRecords_null]
    rfl
  · obtain ⟨out, ho, hl⟩ := tryMapRecords_length dateKey (objs.map Json.obj)
      fun j hj => by
        obtain ⟨fs, _, rfl⟩ := List.mem_map.1 hj
        exact ⟨_, rfl⟩
    show ((tryMapRecords dateKey (objs.map Json.obj)).getD []).length = _
    rw [ho]
    simpa using hl

/-- Witness for the amended C5 theorem at concrete inputs: a corrupt string
yields the empty collection, a stored array holding a null element is
emptied by the caught TypeError, and a two-object stored array loads as
exactly two records. -/
theorem loadCollection_spec_witness :
    loadCollection "timestamp" (Except.error "Unexpected token") = [] ∧
    loadCollection "timestamp" (Except.ok (Json.arr
      [Json.null, Json.bool true])) = [] ∧
    (loadCollection "timestamp" (Except.ok (Json.arr
        ([[("name", Json.str "a")], [("name", Json.str "b")]].map
          Json.obj)))).length = 2 :=
  ⟨loadCollection_spec.1 "timestamp" "Unexpected token",
   loadCollection_spec.2.2.2.1 "timestamp" [] [Json.bool true],
   loadCollection_spec.2.2.2.2.1 "timestamp"
     [[("name", Json.str "a")], [("name", Json.str "b")]]⟩

/-- Claim C2 (code bug): `JSON.stringify` persists a recorded `timeoutId`
(first conjunct: it survives the save/load round trip inside the reminder
object), and the restore effect's guard `!task.reminder.timeoutId` then sees
the stale number and arms nothing (second conjunct: a task created 50 minutes
before reload with an enabled '1hr' reminder and persisted handle 42 gets NO
timer), although no timer is live after a reload and the spec requires the
remaining ~10 minutes to be armed — as the third conjunct shows happens when
no stale handle was persisted. -/
theorem restore_skips_stale_handle :
    (loadRecord "createdAt" (stringifyPlanningTask
        ⟨7, "plan", Priority.low, 0,
          some ⟨true, "1hr", none, some 42⟩⟩)).map
        (fun r => lookupField r.fields "reminder") =
      some (some (stringifyReminder ⟨true, "1hr", none, some 42⟩)) ∧
    restoreDelay 3000000 0 (some ⟨true, "1hr", none, some 42⟩) = none ∧
    restoreDelay 3000000 0 (some ⟨true, "1hr", none, none⟩) = some 600000 :=
  ⟨rfl, rfl, rfl⟩
